import Mathlib

/-!
# imaptest mailbox state engine: a shallow embedding of `src/mailbox-state.c`

The C functions of `mailbox-state.c` are translated into total Lean functions
over an explicit program state.  Pointers into arrays and pools become
indices, C strings become `String`, a failed `i_assert`, an `exit(2)` and an
access outside an array become an `Outcome.abort`, and the two reporting
channels (`client_input_error`, `client_state_error`) together with
`i_error` / `i_warning` append to a log kept in the state.
-/

namespace ImapTest

/-! ## C strings -/

/-- The test `strcasecmp(a, b) == 0` (ASCII case folding). -/
def strcasecmp_eq (a b : String) : Bool :=
  a.data.map Char.toLower == b.data.map Char.toLower

/-- The test `strcmp(a, b) == 0`. -/
def strcmp_eq (a b : String) : Bool := a == b

/-- The test `strncmp(s, p, strlen(p)) == 0`: the string `s` begins with `p`. -/
def strncmp_eq (s p : String) : Bool := s.data.take p.data.length == p.data

/-- The pointer `s + n` into a C string holding at least `n` characters. -/
def str_skip (s : String) (n : Nat) : String := String.mk (s.data.drop n)

/-- The library call `t_str_ucase`. -/
def t_str_ucase (s : String) : String := String.mk (s.data.map Char.toUpper)

/-- The library call `strlen`. -/
def strlen (s : String) : Nat := s.data.length

/-- The C library predicate `isspace` in the C locale. -/
def c_isspace (c : Char) : Bool :=
  c == ' ' || c == '\t' || c == '\n' || c == '\x0b' || c == '\x0c' || c == '\r'

/-- Value of a decimal digit character. -/
def digit_val (c : Char) : Nat := c.toNat - 48

/-- Accumulate the leading decimal digits of a character list. -/
def digits_value : List Char → Nat → Nat
  | [], acc => acc
  | c :: cs, acc => if c.isDigit then digits_value cs (acc * 10 + digit_val c) else acc

/-- Largest value of `unsigned long long` and of `uoff_t` (64 bits). -/
def ULLONG_MAX : Nat := 2 ^ 64 - 1

/-- The library call `strtoull(s, NULL, 10)`: leading white space is skipped, an
optional sign is read, the leading digits are accumulated, a value that does
not fit is clamped to `ULLONG_MAX`, and a minus sign negates modulo `2 ^ 64`. -/
def strtoull (s : String) : Nat :=
  let body := s.data.dropWhile c_isspace
  let neg := body.head? == some '-'
  let ds := if body.head? == some '-' || body.head? == some '+' then body.drop 1 else body
  let v := digits_value ds 0
  if v > ULLONG_MAX then ULLONG_MAX
  else if neg then (2 ^ 64 - v) % 2 ^ 64 else v

/-- The library call `strtoul(s, NULL, 10)` stored into a `uint32_t`. -/
def strtoul_u32 (s : String) : Nat := strtoull s % 2 ^ 32

/-- Character of a decimal digit. -/
def digit_char (d : Nat) : Char := Char.ofNat (48 + d)

/-- The library call `dec2str`: the decimal rendering of an unsigned number. -/
def dec2str (n : Nat) : String :=
  if n = 0 then "0" else String.mk ((Nat.digits 10 n).reverse.map digit_char)

/-! ## Parsed IMAP arguments -/

/-- A node of the tokenizer's argument tree (`struct imap_arg`); the end of a
list (`IMAP_ARG_EOL`) is the end of the Lean list. -/
inductive imap_arg where
  | NIL
  | ATOM (s : String)
  | STRING (s : String)
  | LITERAL (s : String)
  | LITERAL_SIZE (n : Nat)
  | LIST (l : List imap_arg)

/-- The macro `IMAP_ARG_TYPE_IS_STRING` together with `IMAP_ARG_STR`: the text
of an atom, a quoted string or a literal. -/
def imap_arg.str? : imap_arg → Option String
  | .ATOM s => some s
  | .STRING s => some s
  | .LITERAL s => some s
  | _ => none

/-! ## Data model -/

/-- The four values of `enum flagchange_dirty_type`; the spec calls them Clean,
PendingConfirm, AwaitingLocalEcho and AwaitingLocalEchoQueued. -/
inductive flagchange_dirty_type where
  | FLAGCHANGE_DIRTY_NO
  | FLAGCHANGE_DIRTY_MAYBE
  | FLAGCHANGE_DIRTY_YES
  | FLAGCHANGE_DIRTY_WAITING
  deriving DecidableEq, Repr

open flagchange_dirty_type

/-- One entry of a header array (`struct message_header`); `value_len` is the
length of `value`. -/
structure message_header where
  name : String
  value : String
  missing : Bool
  deriving DecidableEq, Repr

/-- The record `struct message_global`, keyed by Message-Id; a size of 0 means
unknown, an absent string is `none`. -/
structure message_global where
  message_id : String
  envelope : Option String
  body : Option String
  bodystructure : Option String
  full_size : Nat
  header_size : Nat
  body_size : Nat
  mime1_size : Nat
  headers : List message_header
  deriving DecidableEq, Repr

/-- The record `struct message_metadata_static`, one per UID; `msg` is the
index of the linked `message_global` in the source's pool. -/
structure message_metadata_static where
  uid : Nat
  internaldate : Int
  expunged : Bool
  owner_client_idx1 : Nat
  msg : Option Nat
  deriving DecidableEq, Repr

/-- The record `struct message_metadata_dynamic`, one per sequence number of a
view; `ms` is the index of the bound static metadata, `keyword_bitmask` the
byte array (empty for `NULL`). -/
structure message_metadata_dynamic where
  ms : Option Nat
  mail_flags : Nat
  keyword_bitmask : List Nat
  fetch_refcount : Nat
  flagchange_dirty_type : flagchange_dirty_type
  deriving DecidableEq, Repr

/-- The shared record `struct mailbox_keyword_name`. -/
structure mailbox_keyword_name where
  name : String
  owner_client_idx1 : Nat
  deriving DecidableEq, Repr

/-- The per-view record `struct mailbox_keyword`. -/
structure mailbox_keyword where
  name : mailbox_keyword_name
  refcount : Nat
  flags_counter : Nat
  permanent : Bool
  seen_nonpermanent : Bool
  deriving DecidableEq, Repr

/-- The record `struct mailbox_view`. -/
structure mailbox_view where
  uidmap : List Nat
  messages : List message_metadata_dynamic
  keywords : List mailbox_keyword
  keyword_bitmask_alloc_size : Nat
  flags_counter : Nat
  keywords_can_create_more : Bool
  deriving DecidableEq, Repr

/-- The parts of `struct mailbox_storage` the state engine reads and writes. -/
structure mailbox_storage where
  assign_flag_owners : Bool
  flags_owner_client_idx1 : List Nat
  static_metadata : List message_metadata_static
  keyword_names : List mailbox_keyword_name
  deriving DecidableEq, Repr

/-- The message pool and Message-Id hash of `struct mailbox_source`; the hash
holds exactly the pool's records, keyed by `message_id`. -/
structure mailbox_source where
  messages : List message_global
  deriving DecidableEq, Repr

/-- The reporting call a message goes through. -/
inductive Channel where
  | client_input_error
  | client_state_error
  | i_error
  | i_warning
  deriving DecidableEq, Repr

/-- The messages of `mailbox-state.c`, one constructor per format string. -/
inductive Msg where
  | fetch_not_list
  | uid_changed (seq old new : Nat)
  | message_id_changed (uid : Nat) (old new : String)
  | flags_non_atoms
  | invalid_system_flag (atom : String)
  | keyword_not_in_flags (atom : String)
  | flags_changed_owned_message
  | owned_flag_changed (i : Nat) (expunged : Bool)
  | owned_keyword_changed (name : String) (expunged : Bool)
  | unexpected_header (name : String)
  | header_changed (message_id name old new : String)
  | flags_not_list
  | broken_internaldate
  | internaldate_changed (uid : Nat) (old new : Int)
  | field_changed (uid : Nat) (message_id name old new : String)
  | size_changed (uid : Nat) (message_id name : String) (old new : Nat)
  | broken_header_fields
  | keyword_dropped (name : String) (refcount : Nat)
  | permanentflag_not_introduced (atom : String)
  | keyword_not_permanent (name : String)
  deriving DecidableEq, Repr

/-- One logged report. -/
structure Report where
  channel : Channel
  msg : Msg
  deriving DecidableEq, Repr

/-- The program state seen by one client: its index, its view, the shared
storage and source, the `conf.error_quit` setting and the log. -/
structure State where
  error_quit : Bool
  client_idx : Nat
  view : mailbox_view
  storage : mailbox_storage
  source : mailbox_source
  log : List Report
  deriving DecidableEq, Repr

/-- Ways a call ends without returning. -/
inductive Abort where
  | assert_failed
  | exit_2
  | out_of_bounds
  deriving DecidableEq, Repr

/-- Result of a call: it returns `a` in state `s`, or the process stops. -/
inductive Outcome (α : Type) where
  | ok (a : α) (s : State)
  | abort (why : Abort) (s : State)
  deriving DecidableEq, Repr

/-- The state a call ends in. -/
def Outcome.state {α : Type} : Outcome α → State
  | .ok _ s => s
  | .abort _ s => s

/-- The call `client_input_error`. -/
def client_input_error (log : List Report) (m : Msg) : List Report :=
  log ++ [⟨Channel.client_input_error, m⟩]

/-- The call `client_state_error`. -/
def client_state_error (log : List Report) (m : Msg) : List Report :=
  log ++ [⟨Channel.client_state_error, m⟩]

/-! ## Helpers of `mailbox.c` (not part of the translated file) -/

/-- Modelled from the spec: the table `mail_flag_names` of `mailbox.c` is
missing; these are the system flags of the known vocabulary, flag `i` having
the bit `1 << i`. -/
def mail_flag_names : List String :=
  ["\\Answered", "\\Flagged", "\\Deleted", "\\Seen", "\\Draft", "\\Recent"]

/-- Search of a flag name (without its sigil) in a table, giving its bit. -/
def mail_flag_lookup (str : String) : List String → Nat → Nat
  | [], _ => 0
  | n :: ns, i =>
    if strcasecmp_eq str (str_skip n 1) then 1 <<< i else mail_flag_lookup str ns (i + 1)

/-- Modelled from the spec: the function `mail_flag_parse` of `mailbox.c` is
missing; a name of the known system-flag vocabulary parses to its bit, any
other name to 0. -/
def mail_flag_parse (str : String) : Nat := mail_flag_lookup str mail_flag_names 0

/-- Modelled from the spec: the constant `MAIL_FLAGS_SET` of `mailbox.h` is
missing; it is the "initialized" marker bit, outside the system-flag bits. -/
def MAIL_FLAGS_SET : Nat := 0x40000000

/-- Modelled from the spec: the function `mailbox_view_keyword_find` of
`mailbox.c` is missing; it gives the index of the keyword of the view's
vocabulary that has the given name, if there is one. -/
def mailbox_view_keyword_find (name : String) : List mailbox_keyword → Option Nat
  | [] => none
  | kw :: kws =>
    if kw.name.name = name then some 0
    else (mailbox_view_keyword_find name kws).map (· + 1)

/-- Modelled from the spec: the keyword-name table of `mailbox.c` is missing;
the shared name record of a keyword carries the owner the external allocator
assigned to it, and a name seen for the first time has no owner yet. -/
def mailbox_keyword_name_get (names : List mailbox_keyword_name) (name : String) :
    mailbox_keyword_name × List mailbox_keyword_name :=
  match names.find? (fun n => n.name == name) with
  | some n => (n, names)
  | none => (⟨name, 0⟩, names ++ [⟨name, 0⟩])

/-- Modelled from the spec: the function `mailbox_view_keyword_add` of
`mailbox.c` is missing; the keyword is appended to the view's vocabulary as
a new entry with the next bit index, carried by no message, announced in the
current round. -/
def mailbox_view_keyword_add (s : State) (name : String) : State :=
  let r := mailbox_keyword_name_get s.storage.keyword_names name
  { s with
    storage := { s.storage with keyword_names := r.2 }
    view := { s.view with
      keywords := s.view.keywords ++
        [{ name := r.1, refcount := 0, flags_counter := s.view.flags_counter,
           permanent := false, seen_nonpermanent := false }] } }

/-- Zero-extension of a byte array to `n` bytes. -/
def zero_extend (kb : List Nat) (n : Nat) : List Nat :=
  kb ++ List.replicate (n - kb.length) 0

/-- Modelled from the spec: the function `mailbox_view_keywords_realloc` of
`mailbox.c` is missing; the capacity becomes `new_alloc_size` and the bitmask
of every sequence number of the view keeps its content, zero-extended. -/
def mailbox_view_keywords_realloc (view : mailbox_view) (new_alloc_size : Nat) :
    mailbox_view :=
  { view with
    keyword_bitmask_alloc_size := new_alloc_size
    messages := view.messages.map fun m =>
      { m with keyword_bitmask := zero_extend m.keyword_bitmask new_alloc_size } }

/-- Bit `i` of a byte array: the test `(kb[i/8] & (1 << (i%8))) != 0`, a byte
outside the array reading as 0. -/
def bit_set (kb : List Nat) (i : Nat) : Bool :=
  (kb.getD (i / 8) 0 &&& (1 <<< (i % 8))) != 0

/-- Decrement of the refcount of every keyword whose bit is set, the first
keyword of the list having bit index `i`. -/
def keywords_unref (kb : List Nat) : Nat → List mailbox_keyword → List mailbox_keyword
  | _, [] => []
  | i, kw :: kws =>
    (if bit_set kb i then { kw with refcount := kw.refcount - 1 } else kw) ::
      keywords_unref kb (i + 1) kws

/-- Modelled from the spec: the function `mailbox_keywords_clear` of
`mailbox.c` is missing; every set keyword bit of the metadata is cleared
(the bitmask becomes all zero, of the view's capacity) and the refcount of
the corresponding keyword is decremented. -/
def mailbox_keywords_clear (alloc_size : Nat) (keywords : List mailbox_keyword)
    (kb : List Nat) : List mailbox_keyword × List Nat :=
  (keywords_unref kb 0 keywords, List.replicate alloc_size 0)

/-! ## `message_metadata_set_flags` and its checks -/

/-- The record `struct msg_old_flags`. -/
structure msg_old_flags where
  flags : Nat
  keyword_bitmask : List Nat
  kw_alloc_size : Nat
  deriving DecidableEq, Repr

/-- The function `have_unexpected_changes`; `none` when `memcmp` would read
past the end of the metadata's bitmask. -/
def have_unexpected_changes (view : mailbox_view) (old : msg_old_flags)
    (metadata : message_metadata_dynamic) : Option Bool :=
  if metadata.mail_flags != old.flags then some true
  else if old.kw_alloc_size != view.keyword_bitmask_alloc_size then some true
  else if metadata.keyword_bitmask.length < old.kw_alloc_size then none
  else some (old.keyword_bitmask.take old.kw_alloc_size !=
    metadata.keyword_bitmask.take old.kw_alloc_size)

/-- The first loop of `check_unexpected_flag_changes`, over the entries of
`flags_owner_client_idx1` from index `i` on. -/
def check_flags_loop (client_idx1 old_flags new_flags : Nat) (expunged : Bool) :
    List Nat → Nat → List Report → List Report
  | [], _, log => log
  | owner :: owners, i, log =>
    let old_set := (old_flags &&& (1 <<< i)) != 0
    let new_set := (new_flags &&& (1 <<< i)) != 0
    check_flags_loop client_idx1 old_flags new_flags expunged owners (i + 1)
      (if old_set != new_set && owner == client_idx1 then
        client_state_error log (Msg.owned_flag_changed i expunged)
      else log)

/-- The second loop of `check_unexpected_flag_changes`, over the given indices
`i` (all those below `keyword_bitmask_alloc_size`). -/
def check_keywords_loop (client_idx1 : Nat) (old : msg_old_flags) (kb : List Nat)
    (keywords : List mailbox_keyword) (expunged : Bool) :
    List Nat → List Report → List Report × Option Abort
  | [], log => (log, none)
  | i :: is, log =>
    match kb.get? (i / 8) with
    | none => (log, some Abort.out_of_bounds)
    | some b =>
      let old_set :=
        if i ≥ old.kw_alloc_size then false
        else (old.keyword_bitmask.getD (i / 8) 0 &&& (1 <<< (i % 8))) != 0
      let new_set := (b &&& (1 <<< (i % 8))) != 0
      if old_set != new_set then
        match keywords.get? i with
        | none => (log, some Abort.out_of_bounds)
        | some kw =>
          check_keywords_loop client_idx1 old kb keywords expunged is
            (if kw.name.owner_client_idx1 == client_idx1 then
              client_state_error log (Msg.owned_keyword_changed kw.name.name expunged)
            else log)
      else check_keywords_loop client_idx1 old kb keywords expunged is log

/-- The function `check_unexpected_flag_changes`: the log after its reports,
and the abort if an array is read outside its bounds. -/
def check_unexpected_flag_changes (client_idx : Nat) (view : mailbox_view)
    (storage : mailbox_storage) (old : msg_old_flags)
    (metadata : message_metadata_dynamic) (expunged : Bool) (log : List Report) :
    List Report × Option Abort :=
  let log1 := check_flags_loop (client_idx + 1) old.flags metadata.mail_flags expunged
    storage.flags_owner_client_idx1 0 log
  check_keywords_loop (client_idx + 1) old metadata.keyword_bitmask view.keywords expunged
    (List.range view.keyword_bitmask_alloc_size) log1

/-- Variables of the argument loop of `message_metadata_set_flags`. -/
structure flags_loop_vars where
  flags : Nat
  keywords : List mailbox_keyword
  keyword_bitmask : List Nat
  log : List Report
  deriving DecidableEq, Repr

/-- How the argument loop of `message_metadata_set_flags` ends. -/
inductive flags_loop_end where
  | eol (v : flags_loop_vars)
  | non_atom (v : flags_loop_vars)
  | abort (why : Abort) (v : flags_loop_vars)
  deriving DecidableEq, Repr

/-- The `while (args->type != IMAP_ARG_EOL)` loop of
`message_metadata_set_flags`. -/
def set_flags_loop (alloc_size : Nat) : List imap_arg → flags_loop_vars → flags_loop_end
  | [], v => .eol v
  | .ATOM atom :: args, v =>
    if atom.data.head? = some '\\' then
      let flag := mail_flag_parse (str_skip atom 1)
      if flag ≠ 0 then set_flags_loop alloc_size args { v with flags := v.flags ||| flag }
      else set_flags_loop alloc_size args
        { v with log := client_input_error v.log (Msg.invalid_system_flag atom) }
    else
      match mailbox_view_keyword_find atom v.keywords with
      | none => set_flags_loop alloc_size args
          { v with log := client_state_error v.log (Msg.keyword_not_in_flags atom) }
      | some idx =>
        if idx / 8 < alloc_size then
          match v.keyword_bitmask.get? (idx / 8) with
          | none => .abort Abort.out_of_bounds v
          | some b =>
            set_flags_loop alloc_size args
              { v with
                keywords := v.keywords.modify (fun kw => { kw with refcount := kw.refcount + 1 }) idx
                keyword_bitmask := v.keyword_bitmask.set (idx / 8) (b ||| (1 <<< (idx % 8))) }
        else .abort Abort.assert_failed v
  | _ :: _, v => .non_atom { v with log := client_input_error v.log Msg.flags_non_atoms }

/-- The dirty-state update that ends `message_metadata_set_flags`. -/
def dirty_update (fetch_refcount : Nat) (d : flagchange_dirty_type) : flagchange_dirty_type :=
  if fetch_refcount ≤ 1 then
    if d ≠ FLAGCHANGE_DIRTY_NO then FLAGCHANGE_DIRTY_MAYBE else d
  else if d = FLAGCHANGE_DIRTY_YES then FLAGCHANGE_DIRTY_WAITING
  else d

/-- Store the view's keywords and the metadata of index `m` back into the state. -/
def State.store (s : State) (m : Nat) (keywords : List mailbox_keyword)
    (metadata : message_metadata_dynamic) (log : List Report) : State :=
  { s with
    view := { s.view with keywords := keywords, messages := s.view.messages.set m metadata }
    log := log }

/-- The snapshot `old_flags` taken at the head of `message_metadata_set_flags`:
a zeroed buffer of the view's capacity, overwritten with the metadata's
bitmask unless that is `NULL`. -/
def snapshot_old_flags (alloc : Nat) (metadata : message_metadata_dynamic) : msg_old_flags :=
  { flags := metadata.mail_flags
    kw_alloc_size := alloc
    keyword_bitmask :=
      if metadata.keyword_bitmask = [] then List.replicate alloc 0
      else metadata.keyword_bitmask.take alloc }

/-- The ownership checks of `message_metadata_set_flags` (the `if` chain after
the new flags are stored): the log after them, and the abort if a pointer or
an index is out of bounds. -/
def flag_owner_checks (s : State) (view : mailbox_view) (old : msg_old_flags)
    (metadata : message_metadata_dynamic) (log : List Report) : List Report × Option Abort :=
  if (old.flags &&& MAIL_FLAGS_SET) = 0 ∨
      metadata.flagchange_dirty_type ≠ FLAGCHANGE_DIRTY_NO then (log, none)
  else
    match metadata.ms with
    | none => (log, none)
    | some j =>
      match s.storage.static_metadata.get? j with
      | none => (log, some Abort.out_of_bounds)
      | some ms =>
        if ms.owner_client_idx1 = s.client_idx + 1 then
          match have_unexpected_changes view old metadata with
          | none => (log, some Abort.out_of_bounds)
          | some true => (client_state_error log Msg.flags_changed_owned_message, none)
          | some false => (log, none)
        else if s.storage.assign_flag_owners then
          check_unexpected_flag_changes s.client_idx view s.storage old metadata ms.expunged log
        else (log, none)

/-- The function `message_metadata_set_flags`, applied to the flag list `args`
and the metadata at index `m` of the view's `messages`. -/
def message_metadata_set_flags (s : State) (args : List imap_arg) (m : Nat) : Outcome Unit :=
  match s.view.messages.get? m with
  | none => .abort Abort.out_of_bounds s
  | some metadata =>
    let alloc := s.view.keyword_bitmask_alloc_size
    if metadata.keyword_bitmask ≠ [] ∧ metadata.keyword_bitmask.length < alloc then
      .abort Abort.out_of_bounds s
    else
      let old_flags := snapshot_old_flags alloc metadata
      let cleared := mailbox_keywords_clear alloc s.view.keywords metadata.keyword_bitmask
      match set_flags_loop alloc args ⟨0, cleared.1, cleared.2, s.log⟩ with
      | .abort why v =>
        .abort why (s.store m v.keywords { metadata with keyword_bitmask := v.keyword_bitmask } v.log)
      | .non_atom v =>
        .ok () (s.store m v.keywords { metadata with keyword_bitmask := v.keyword_bitmask } v.log)
      | .eol v =>
        let metadata1 : message_metadata_dynamic :=
          { metadata with keyword_bitmask := v.keyword_bitmask, mail_flags := v.flags ||| MAIL_FLAGS_SET }
        let view1 : mailbox_view := { s.view with keywords := v.keywords }
        match flag_owner_checks s view1 old_flags metadata1 v.log with
        | (log, some why) => .abort why (s.store m v.keywords metadata1 log)
        | (log, none) =>
          .ok () (s.store m v.keywords
            { metadata1 with
              flagchange_dirty_type :=
                dirty_update metadata1.fetch_refcount metadata1.flagchange_dirty_type }
            log)

/-! ## FETCH replies -/

/-- One line yielded by the library's header parser
(`struct message_header_line`). -/
structure message_header_line where
  name : String
  full_value : String
  continues : Bool
  deriving DecidableEq, Repr

/-- Library code outside the repository that the FETCH handler calls, taken as
parameters: `imap_args_to_str` (the text of a list's elements),
`imap_parse_datetime` (`none` when it fails) and the header parser behind
`message_parse_header_next`, as the lines it yields for a header block. -/
structure Externals where
  imap_args_to_str : List imap_arg → String
  imap_parse_datetime : String → Option Int
  message_parse_header : String → List message_header_line

/-- The function `fetch_list_get`. -/
def fetch_list_get (name : String) : List imap_arg → Option imap_arg
  | .ATOM str :: v :: rest =>
    if strcasecmp_eq name str then some v else fetch_list_get name rest
  | _ :: _ :: rest => fetch_list_get name rest
  | _ => none

/-- The call `hash_lookup` on the Message-Id hash: the pool index of the
record with this key. -/
def hash_lookup (id : String) : List message_global → Option Nat
  | [] => none
  | g :: gs => if g.message_id = id then some 0 else (hash_lookup id gs).map (· + 1)

/-- A record fresh from `p_new`, with its `message_id` set. -/
def message_global.new (id : String) : message_global :=
  ⟨id, none, none, none, 0, 0, 0, 0, []⟩

/-- Write the static metadata at index `j`. -/
def State.set_ms (s : State) (j : Nat) (ms : message_metadata_static) : State :=
  { s with storage := { s.storage with static_metadata := s.storage.static_metadata.set j ms } }

/-- Write the message record at index `k`. -/
def State.set_msg (s : State) (k : Nat) (g : message_global) : State :=
  { s with source := { s.source with messages := s.source.messages.set k g } }

/-- The function `client_fetch_envelope`, for the static metadata at index `j`
and the elements `l` of the ENVELOPE list. -/
def client_fetch_envelope (s : State) (j : Nat) (l : List imap_arg) (uid : Nat) :
    Outcome Unit :=
  if l.length < 9 then .abort Abort.out_of_bounds s
  else
    match l.get? 9 with
    | some (.STRING message_id) =>
      match s.storage.static_metadata.get? j with
      | none => .abort Abort.out_of_bounds s
      | some ms =>
        match ms.msg with
        | some k =>
          match s.source.messages.get? k with
          | none => .abort Abort.out_of_bounds s
          | some g =>
            if strcmp_eq g.message_id message_id then .ok () s
            else .ok ()
              { s with
                log := (client_input_error s.log
                  (Msg.message_id_changed uid g.message_id message_id)) }
        | none =>
          match hash_lookup message_id s.source.messages with
          | some k => .ok () (s.set_ms j { ms with msg := some k })
          | none =>
            .ok ()
              (State.set_ms
                { s with source :=
                    { s.source with messages := s.source.messages ++ [message_global.new message_id] } }
                j { ms with msg := some s.source.messages.length })
    | _ => .ok () s

/-- Index of the first header whose name matches, `strcasecmp` being the test. -/
def header_find (name : String) : List message_header → Option Nat
  | [] => none
  | h :: hs =>
    if strcasecmp_eq h.name name then some 0 else (header_find name hs).map (· + 1)

/-- The function `headers_parse`, over the lines the header parser yields. -/
def headers_parse : List message_header_line → List message_header → List Report →
    List message_header × List Report
  | [], headers, log => (headers, log)
  | hdr :: hdrs, headers, log =>
    if hdr.continues then headers_parse hdrs headers log
    else
      match header_find hdr.name headers with
      | none =>
        headers_parse hdrs headers (client_state_error log (Msg.unexpected_header hdr.name))
      | some i =>
        headers_parse hdrs
          (headers.modify (fun h =>
            if h.value.data.length = 0 then
              { h with value := hdr.full_value, missing := false }
            else
              { h with
                value := (String.mk
                  ((h.value.data ++ '\n' :: hdr.full_value.data).take
                    (h.value.data.length + hdr.full_value.data.length))) }) i)
          log

/-- The function `headers_match`, merging the fetched headers into
`msg->headers`. -/
def headers_match (message_id : String) : List message_header → List message_header →
    List Report → List message_header × List Report
  | [], orig, log => (orig, log)
  | f :: fs, orig, log =>
    match header_find f.name orig with
    | none =>
      headers_match message_id fs
        (if f.value.data.length ≠ 0 then orig ++ [f] else orig) log
    | some j =>
      match orig.get? j with
      | none => headers_match message_id fs orig log
      | some o =>
        if f.missing ≠ o.missing ∨ f.value.data.length ≠ o.value.data.length ∨
            f.value ≠ o.value then
          headers_match message_id fs orig
            (client_state_error log (Msg.header_changed message_id f.name o.value f.value))
        else headers_match message_id fs orig log

/-- The requested names of `fetch_parse_header_fields`, duplicates dropped;
`none` when an element is neither an atom nor a quoted string. -/
def header_names : List imap_arg → List message_header → Option (List message_header)
  | [], headers => some headers
  | .ATOM n :: args, headers =>
    header_names args (if (header_find n headers).isNone then headers ++ [⟨n, "", true⟩] else headers)
  | .STRING n :: args, headers =>
    header_names args (if (header_find n headers).isNone then headers ++ [⟨n, "", true⟩] else headers)
  | _ :: _, _ => none

/-- The function `fetch_parse_header_fields`: `arg` is `args[args_idx]`, `rest`
the arguments after it, `k` the index of the message record. -/
def fetch_parse_header_fields (ext : Externals) (s : State) (arg : imap_arg)
    (rest : List imap_arg) (k : Nat) : Outcome Int :=
  match arg with
  | .LIST header_args =>
    match header_names header_args [] with
    | none => .ok (-1) s
    | some names =>
      let headers := names ++ [⟨"", "", true⟩]
      match rest with
      | .ATOM a :: rest1 =>
        if ¬ strcmp_eq a "]" then .ok (-1) s
        else
          match rest1 with
          | .NIL :: _ => .ok 0 s
          | .ATOM header :: _ =>
            match s.source.messages.get? k with
            | none => .abort Abort.out_of_bounds s
            | some g =>
              let parsed := headers_parse (ext.message_parse_header header) headers s.log
              let merged := headers_match g.message_id parsed.1 g.headers parsed.2
              .ok 0 (State.set_msg { s with log := merged.2 } k { g with headers := merged.1 })
          | .LITERAL header :: _ =>
            match s.source.messages.get? k with
            | none => .abort Abort.out_of_bounds s
            | some g =>
              let parsed := headers_parse (ext.message_parse_header header) headers s.log
              let merged := headers_match g.message_id parsed.1 g.headers parsed.2
              .ok 0 (State.set_msg { s with log := merged.2 } k { g with headers := merged.1 })
          | .STRING header :: _ =>
            if header.data = [] then .ok 0 s
            else
              match s.source.messages.get? k with
              | none => .abort Abort.out_of_bounds s
              | some g =>
                let parsed := headers_parse (ext.message_parse_header header) headers s.log
                let merged := headers_match g.message_id parsed.1 g.headers parsed.2
                .ok 0 (State.set_msg { s with log := merged.2 } k { g with headers := merged.1 })
          | _ => .ok (-1) s
      | _ => .ok (-1) s
  | _ => .abort Abort.assert_failed s

/-- The macro `BODY_NIL_REPLY`. -/
def BODY_NIL_REPLY : String := "\"text\" \"plain\" NIL NIL NIL \"7bit\" 0 0 NIL NIL NIL"

/-- The macro `ENVELOPE_NIL_REPLY`. -/
def ENVELOPE_NIL_REPLY : String := "NIL NIL NIL NIL NIL NIL NIL NIL NIL NIL"

/-- The macro `INTERNALDATE_NIL_TIMESTAMP`. -/
def INTERNALDATE_NIL_TIMESTAMP : Int := 0

/-- The macro `RFC822_SIZE_NIL_REPLY`. -/
def RFC822_SIZE_NIL_REPLY : String := "0"

/-- The three string fields `p` can point to. -/
inductive str_field where
  | body
  | bodystructure
  | envelope
  deriving DecidableEq, Repr

/-- The four size fields `sizep` can point to. -/
inductive size_field where
  | full_size
  | header_size
  | body_size
  | mime1_size
  deriving DecidableEq, Repr

/-- Read of `*p`. -/
def str_field.get (g : message_global) : str_field → Option String
  | .body => g.body
  | .bodystructure => g.bodystructure
  | .envelope => g.envelope

/-- Write of `*p`. -/
def str_field.set (g : message_global) (value : String) : str_field → message_global
  | .body => { g with body := some value }
  | .bodystructure => { g with bodystructure := some value }
  | .envelope => { g with envelope := some value }

/-- Read of `*sizep`. -/
def size_field.get (g : message_global) : size_field → Nat
  | .full_size => g.full_size
  | .header_size => g.header_size
  | .body_size => g.body_size
  | .mime1_size => g.mime1_size

/-- Write of `*sizep`. -/
def size_field.set (g : message_global) (n : Nat) : size_field → message_global
  | .full_size => { g with full_size := n }
  | .header_size => { g with header_size := n }
  | .body_size => { g with body_size := n }
  | .mime1_size => { g with mime1_size := n }

/-- What the name dispatch of `mailbox_state_handle_fetch` (the chain of
comparisons on `name`) leaves in `p`, `sizep` and `value_size`: a `continue`,
a string field, a size field with `value_size`, the HEADER.FIELDS call, or
nothing. -/
inductive fetch_target where
  | skip
  | str (f : str_field)
  | size (f : size_field) (value_size : Nat)
  | header_fields
  | nothing
  deriving DecidableEq, Repr

/-- The name dispatch of `mailbox_state_handle_fetch`; `value_size` starts as
`(uoff_t)-1`. -/
def fetch_select (name value : String) : fetch_target :=
  if strcmp_eq name "BODY" then
    if strncmp_eq value BODY_NIL_REPLY then .skip else .str .body
  else if strcmp_eq name "BODYSTRUCTURE" then
    if strncmp_eq value BODY_NIL_REPLY then .skip else .str .bodystructure
  else if strcmp_eq name "ENVELOPE" then
    if strncmp_eq value ENVELOPE_NIL_REPLY then .skip else .str .envelope
  else if strncmp_eq name "RFC822" then
    if strlen name = 6 then .size .full_size ULLONG_MAX
    else if strcmp_eq (str_skip name 6) ".SIZE" then
      if strcmp_eq value RFC822_SIZE_NIL_REPLY then .skip
      else .size .full_size (strtoull value)
    else if strcmp_eq (str_skip name 6) "HEADER" then .size .header_size ULLONG_MAX
    else if strcmp_eq (str_skip name 6) "TEXT" then .size .body_size ULLONG_MAX
    else .nothing
  else if strncmp_eq name "BODY[" then
    if strcmp_eq (str_skip name 5) "HEADER.FIELDS" then .header_fields
    else if strcmp_eq (str_skip name 5) "]" then .size .full_size ULLONG_MAX
    else if strcmp_eq (str_skip name 5) "HEADER]" then .size .header_size ULLONG_MAX
    else if strcmp_eq (str_skip name 5) "TEXT]" then .size .body_size ULLONG_MAX
    else if strcmp_eq (str_skip name 5) "1]" then .size .mime1_size ULLONG_MAX
    else .nothing
  else .nothing

/-- The text `value` of the second element of a pair; `none` is the `continue`
for an element that is no string, literal size or list. -/
def fetch_value (ext : Externals) : imap_arg → Option String
  | .ATOM v => some v
  | .STRING v => some v
  | .LITERAL v => some v
  | .LITERAL_SIZE n => some (dec2str n)
  | .LIST l => some (ext.imap_args_to_str l)
  | .NIL => none

/-- The size a pair reports when `value_size` is still `(uoff_t)-1`. -/
def fetch_value_size (v : imap_arg) (value : String) : Nat :=
  match v with
  | .LITERAL_SIZE _ => strtoull value
  | _ => strlen value

/-- The end of the loop body of `mailbox_state_handle_fetch`: the part that
needs the message to be known, for the static metadata `ms` and the message
record `g` at pool index `k`. -/
def fetch_pair_msg (ext : Externals) (s : State) (ms : message_metadata_static) (k : Nat)
    (g : message_global) (name value : String) (v : imap_arg) (rest : List imap_arg) :
    Outcome Unit :=
  match fetch_select name value with
  | .skip => .ok () s
  | .nothing => .ok () s
  | .header_fields =>
    match fetch_parse_header_fields ext s v rest k with
    | .ok r s1 =>
      if r < 0 then .ok () { s1 with log := client_input_error s1.log Msg.broken_header_fields }
      else .ok () s1
    | .abort why s1 => .abort why s1
  | .str f =>
    match f.get g with
    | none => .ok () (s.set_msg k (f.set g value))
    | some old =>
      if strcasecmp_eq old value then .ok () s
      else .ok ()
        (State.set_msg
          { s with
            log := (client_state_error s.log
              (Msg.field_changed ms.uid g.message_id name old value)) }
          k (f.set g value))
  | .size f value_size0 =>
    let value_size :=
      if value_size0 = ULLONG_MAX then fetch_value_size v value else value_size0
    .ok ()
      (State.set_msg
        { s with
          log := (if f.get g ≠ value_size ∧ f.get g ≠ 0 then
            client_state_error s.log
              (Msg.size_changed ms.uid g.message_id name (f.get g) value_size)
            else s.log) }
        k (f.set g value_size))

/-- The metadata record `array_idx_modifiable` gives for a new index. -/
def zero_metadata : message_metadata_dynamic := ⟨none, 0, [], 0, FLAGCHANGE_DIRTY_NO⟩

/-- One round of the `for` loop of `mailbox_state_handle_fetch`, for the pair
`a`, `v` (the elements `args[i]`, `args[i+1]`), `rest` being the elements
after the pair and `m` the index `seq - 1`. -/
def fetch_pair (ext : Externals) (s : State) (m : Nat) (a v : imap_arg)
    (rest : List imap_arg) : Outcome Unit :=
  match a with
  | .ATOM a_str =>
    let name := t_str_ucase a_str
    match fetch_value ext v with
    | none => .ok () s
    | some value =>
      if strcmp_eq name "FLAGS" then
        match v with
        | .LIST l => message_metadata_set_flags s l m
        | _ => .ok () { s with log := client_input_error s.log Msg.flags_not_list }
      else
        match (s.view.messages.getD m zero_metadata).ms with
        | none => .ok () s
        | some j =>
          if strcmp_eq name "INTERNALDATE" then
            match ext.imap_parse_datetime value with
            | none => .ok () { s with log := client_input_error s.log Msg.broken_internaldate }
            | some t =>
              if t = INTERNALDATE_NIL_TIMESTAMP then .ok () s
              else
                match s.storage.static_metadata.get? j with
                | none => .abort Abort.out_of_bounds s
                | some ms =>
                  if ms.internaldate = 0 then .ok () (s.set_ms j { ms with internaldate := t })
                  else if ms.internaldate ≠ t then
                    .ok ()
                      { s with
                        log := (client_input_error s.log
                          (Msg.internaldate_changed (s.view.uidmap.getD m 0) ms.internaldate t)) }
                  else .ok () s
          else
            match s.storage.static_metadata.get? j with
            | none => .abort Abort.out_of_bounds s
            | some ms =>
              match ms.msg with
              | none => .ok () s
              | some k =>
                match s.source.messages.get? k with
                | none => .abort Abort.out_of_bounds s
                | some g => fetch_pair_msg ext s ms k g name value v rest
  | _ => .ok () s

/-- The `for (i = 0; i+1 < list_count; i += 2)` loop of
`mailbox_state_handle_fetch`. -/
def fetch_pairs_loop (ext : Externals) (m : Nat) : List imap_arg → State → Outcome Unit
  | a :: v :: rest, s =>
    match fetch_pair ext s m a v rest with
    | .ok _ s1 => fetch_pairs_loop ext m rest s1
    | .abort why s1 => .abort why s1
  | _, s => .ok () s

/-- The library call `array_idx_modifiable`: an index past the end extends
the array with zeroed elements. -/
def array_idx_modifiable {α : Type} (zero : α) (l : List α) (i : Nat) : List α :=
  l ++ List.replicate (i + 1 - l.length) zero

/-- Index of the static metadata with this UID. -/
def static_find (uid : Nat) : List message_metadata_static → Option Nat
  | [] => none
  | ms :: rest => if ms.uid = uid then some 0 else (static_find uid rest).map (· + 1)

/-- Modelled from the spec: the function `message_metadata_static_get` of
`mailbox.c` is missing; it gives the canonical metadata of the UID, creating
it with all optional fields unset the first time. -/
def message_metadata_static_get (storage : mailbox_storage) (uid : Nat) :
    Nat × mailbox_storage :=
  match static_find uid storage.static_metadata with
  | some j => (j, storage)
  | none =>
    (storage.static_metadata.length,
      { storage with static_metadata := storage.static_metadata ++ [⟨uid, 0, false, 0, none⟩] })

/-- The UID resolution at the head of `mailbox_state_handle_fetch`: the new
value of `*uidp` and the log. -/
def fetch_uid (seq uidp : Nat) (l : List imap_arg) (log : List Report) : Nat × List Report :=
  match fetch_list_get "UID" l with
  | some (.ATOM value) =>
    let uid := strtoul_u32 value
    if uidp = 0 then (uid, log)
    else if uidp ≠ uid then (uid, client_input_error log (Msg.uid_changed seq uidp uid))
    else (uidp, log)
  | _ => (uidp, log)

/-- The function `mailbox_state_handle_fetch`. -/
def mailbox_state_handle_fetch (ext : Externals) (s : State) (seq : Nat) (args : imap_arg) :
    Outcome Unit :=
  if seq = 0 then .abort Abort.out_of_bounds s
  else
    let m := seq - 1
    let uidmap0 := array_idx_modifiable 0 s.view.uidmap m
    match args with
    | .LIST l =>
      let r := fetch_uid seq (uidmap0.getD m 0) l s.log
      let uid := r.1
      let messages0 := array_idx_modifiable zero_metadata s.view.messages m
      let metadata := messages0.getD m zero_metadata
      let bound :=
        if metadata.ms = none ∧ uid ≠ 0 then
          let g := message_metadata_static_get s.storage uid
          (some g.1, g.2)
        else (metadata.ms, s.storage)
      let s1 : State :=
        { s with
          view := { s.view with
            uidmap := uidmap0.set m uid
            messages := messages0.set m { metadata with ms := bound.1 } }
          storage := bound.2
          log := r.2 }
      match bound.1 with
      | none => fetch_pairs_loop ext m l s1
      | some j =>
        match s1.storage.static_metadata.get? j with
        | none => .abort Abort.out_of_bounds s1
        | some ms =>
          if ms.uid ≠ uid then .abort Abort.assert_failed s1
          else
            match fetch_list_get "ENVELOPE" l with
            | some (.LIST el) =>
              match client_fetch_envelope s1 j el uid with
              | .ok _ s2 => fetch_pairs_loop ext m l s2
              | .abort why s2 => .abort why s2
            | _ => fetch_pairs_loop ext m l s1
    | _ =>
      .ok ()
        { s with
          view := { s.view with uidmap := uidmap0 }
          log := client_input_error s.log Msg.fetch_not_list }

/-! ## FLAGS and PERMANENTFLAGS replies -/

/-- The argument loop of `mailbox_state_set_flags`: the state reached, and
whether the loop ran to the end (`false` is `return -1`). -/
def announce_loop : List imap_arg → State → State × Bool
  | [], s => (s, true)
  | .ATOM atom :: args, s =>
    if atom.data.head? = some '\\' then
      if mail_flag_parse (str_skip atom 1) = 0 then (s, false)
      else announce_loop args s
    else
      match mailbox_view_keyword_find atom s.view.keywords with
      | none => announce_loop args (mailbox_view_keyword_add s atom)
      | some idx =>
        announce_loop args
          { s with
            view := { s.view with
              keywords := s.view.keywords.modify
                (fun kw => { kw with flags_counter := s.view.flags_counter }) idx } }
  | _ :: _, s => (s, false)

/-- The scan of `mailbox_state_set_flags` for dropped keywords: the reports,
in order. -/
def dropped_reports (flags_counter : Nat) : List mailbox_keyword → List Report
  | [] => []
  | kw :: kws =>
    if kw.flags_counter ≠ flags_counter ∧ kw.refcount > 0 then
      ⟨Channel.i_error, Msg.keyword_dropped kw.name.name kw.refcount⟩ ::
        dropped_reports flags_counter kws
    else dropped_reports flags_counter kws

/-- The function `mailbox_state_set_flags`; the counters of the view are
unbounded integers. -/
def mailbox_state_set_flags (s : State) (args : imap_arg) : Outcome Int :=
  match args with
  | .LIST l =>
    let s0 : State := { s with view := { s.view with flags_counter := s.view.flags_counter + 1 } }
    match announce_loop l s0 with
    | (s1, false) => .ok (-1) s1
    | (s1, true) =>
      let reports := dropped_reports s1.view.flags_counter s1.view.keywords
      let s2 : State := { s1 with log := s1.log ++ reports }
      let count := s2.view.keywords.length
      if reports ≠ [] ∧ s2.error_quit then .abort Abort.exit_2 s2
      else if (count + 7) / 8 > s2.view.keyword_bitmask_alloc_size then
        .ok 0 { s2 with view := mailbox_view_keywords_realloc s2.view ((count + 7) / 8 * 4) }
      else .ok 0 s2
  | _ => .ok (-1) s

/-- The argument loop of `mailbox_state_set_permanent_flags`: the state, the
`errors` flag, and whether the loop ran to the end (`false` is `return -1`). -/
def permanent_loop : List imap_arg → State → Bool → State × Bool × Bool
  | [], s, errors => (s, errors, true)
  | .ATOM atom :: args, s, errors =>
    if atom.data.head? = some '\\' then
      if strcmp_eq atom "\\*" then
        permanent_loop args { s with view := { s.view with keywords_can_create_more := true } } errors
      else if mail_flag_parse (str_skip atom 1) = 0 then (s, errors, false)
      else permanent_loop args s errors
    else
      match mailbox_view_keyword_find atom s.view.keywords with
      | none =>
        permanent_loop args
          { s with log := s.log ++ [⟨Channel.i_error, Msg.permanentflag_not_introduced atom⟩] } true
      | some idx =>
        permanent_loop args
          { s with
            view := { s.view with
              keywords := s.view.keywords.modify (fun kw => { kw with permanent := true }) idx } }
          errors
  | _ :: _, s, errors => (s, errors, false)

/-- The last loop of `mailbox_state_set_permanent_flags`: warn once about every
keyword that is not permanent. -/
def warn_nonpermanent : List mailbox_keyword → List mailbox_keyword × List Report
  | [] => ([], [])
  | kw :: kws =>
    let r := warn_nonpermanent kws
    if ¬ kw.permanent ∧ ¬ kw.seen_nonpermanent then
      ({ kw with seen_nonpermanent := true } :: r.1,
        ⟨Channel.i_warning, Msg.keyword_not_permanent kw.name.name⟩ :: r.2)
    else (kw :: r.1, r.2)

/-- The function `mailbox_state_set_permanent_flags`. -/
def mailbox_state_set_permanent_flags (s : State) (args : imap_arg) : Outcome Int :=
  match args with
  | .LIST l =>
    let s0 : State :=
      { s with
        view := { s.view with
          keywords := s.view.keywords.map fun kw => { kw with permanent := false }
          keywords_can_create_more := false } }
    match permanent_loop l s0 false with
    | (s1, _, false) => .ok (-1) s1
    | (s1, errors, true) =>
      let w := warn_nonpermanent s1.view.keywords
      let s2 : State :=
        { s1 with view := { s1.view with keywords := w.1 }, log := s1.log ++ w.2 }
      if errors ∧ s2.error_quit then .abort Abort.exit_2 s2
      else .ok 0 s2
  | _ => .ok (-1) s

/-! ## Vocabulary of the theorems -/

/-- Bit `i` of a flag bitset: the test `(flags & (1 << i)) != 0`. -/
def flag_bit (flags i : Nat) : Bool := (flags &&& (1 <<< i)) != 0

/-- A report is an "Owned flag changed" report naming flag `i`. -/
def names_flag (i : Nat) (r : Report) : Bool :=
  match r.msg with
  | .owned_flag_changed k _ => k == i
  | _ => false

/-- Number of "Owned flag changed" reports naming flag `i` in a log. -/
def owned_flag_reports (i : Nat) (log : List Report) : Nat := log.countP (names_flag i)

/-- The variables an argument loop ended with. -/
def flags_loop_end.vars : flags_loop_end → flags_loop_vars
  | .eol v => v
  | .non_atom v => v
  | .abort _ v => v

/-- The messages the argument loop of `message_metadata_set_flags` reports. -/
def loop_msg : Msg → Bool
  | .invalid_system_flag _ => true
  | .keyword_not_in_flags _ => true
  | .flags_non_atoms => true
  | _ => false

/-- An element of a flag list is an atom. -/
def imap_arg.is_atom : imap_arg → Bool
  | .ATOM _ => true
  | _ => false

/-- A report is the "Flags unexpectedly changed for owned message" report. -/
def is_owned_message_report (r : Report) : Bool :=
  match r.msg with
  | .flags_changed_owned_message => true
  | _ => false

/-- A report is one of the three ownership reports of
`message_metadata_set_flags`. -/
def is_ownership_report (r : Report) : Bool :=
  match r.msg with
  | .flags_changed_owned_message => true
  | .owned_flag_changed _ _ => true
  | .owned_keyword_changed _ _ => true
  | _ => false

/-! ## Example states -/

/-- An example message record with a stored BODY and sizes. -/
def example_message : message_global :=
  ⟨"<1@example>", none, some "(\"text\" \"html\")", none, 20, 0, 0, 0, []⟩

/-- An example state for the session `client_idx`: sequence 1 holds UID 5, bound
to canonical metadata whose owner is `msg_owner` (a session index plus one, 0
for none) and whose message is `example_message`; the metadata has the given
flags and keyword bitmask and is Clean; the vocabulary holds the keyword `foo`
with the given refcount; the capacity is 4 bytes; owners are assigned, the
flag `\Seen` (bit 3) belonging to the session of index 0. -/
def example_state (client_idx msg_owner mail_flags : Nat) (kb : List Nat) (refcount : Nat) :
    State :=
  { error_quit := false
    client_idx := client_idx
    view :=
      { uidmap := [5]
        messages := [⟨some 0, mail_flags, kb, 1, FLAGCHANGE_DIRTY_NO⟩]
        keywords := [⟨⟨"foo", 0⟩, refcount, 1, false, false⟩]
        keyword_bitmask_alloc_size := 4
        flags_counter := 1
        keywords_can_create_more := false }
    storage :=
      { assign_flag_owners := true
        flags_owner_client_idx1 := [0, 0, 0, 1, 0, 0]
        static_metadata := [⟨5, 0, false, msg_owner, some 0⟩]
        keyword_names := [⟨"foo", 0⟩] }
    source := ⟨[example_message]⟩
    log := [] }

/-- Example externals: lists render as the empty text, two dates parse, and
the header parser knows two header blocks. -/
def example_ext : Externals :=
  { imap_args_to_str := fun _ => ""
    imap_parse_datetime := fun s =>
      if s = "01-Jan-2024 00:00:00 +0000" then some 1704067200
      else if s = "02-Jan-2024 00:00:00 +0000" then some 1704153600
      else none
    message_parse_header := fun s =>
      if s = "Subject: hi\r\n\r\n" then [⟨"Subject", "hi", false⟩, ⟨"", "", false⟩]
      else if s = "\r\n" then [⟨"", "", false⟩]
      else [] }

/-- An example view with an empty vocabulary, no capacity and one message slot. -/
def empty_state : State :=
  { error_quit := false
    client_idx := 0
    view := ⟨[0], [zero_metadata], [], 0, 0, false⟩
    storage := ⟨false, [0, 0, 0, 0, 0, 0], [], []⟩
    source := ⟨[]⟩
    log := [] }

/-- Number of messages of the view whose keyword bitmask has bit `k` set. -/
def carriers (view : mailbox_view) (k : Nat) : Nat :=
  view.messages.countP fun md => bit_set md.keyword_bitmask k

/-- The keyword refcount invariant: the refcount of every keyword of the view
equals the number of messages carrying it. -/
def refcount_invariant (view : mailbox_view) : Bool :=
  (List.range view.keywords.length).all fun k =>
    (view.keywords.get? k).map (fun kw => kw.refcount) == some (carriers view k)

/-- The FETCH item name (in upper case) that selects a string field. -/
def str_field.item_name : str_field → String
  | .body => "BODY"
  | .bodystructure => "BODYSTRUCTURE"
  | .envelope => "ENVELOPE"

/-- The sentinel text whose presence at the head of a value makes the handler
ignore it. -/
def str_field.nil_reply : str_field → String
  | .body => BODY_NIL_REPLY
  | .bodystructure => BODY_NIL_REPLY
  | .envelope => ENVELOPE_NIL_REPLY

/-- The example state of session 0 with the message awaiting a local echo
(dirty state YES) and two fetches outstanding. -/
def example_dirty_state : State :=
  { example_state 0 1 MAIL_FLAGS_SET [0, 0, 0, 0] 0 with
    view :=
      { (example_state 0 1 MAIL_FLAGS_SET [0, 0, 0, 0] 0).view with
        messages := [⟨some 0, MAIL_FLAGS_SET, [0, 0, 0, 0], 2, FLAGCHANGE_DIRTY_YES⟩] } }

/-- The keyword atoms of a flag list: the texts of its atoms that do not begin
with the system-flag sigil. -/
def keyword_atoms : List imap_arg → List String
  | [] => []
  | .ATOM a :: rest =>
    if a.data.head? = some '\\' then keyword_atoms rest else a :: keyword_atoms rest
  | _ :: rest => keyword_atoms rest

/-- A well-formed FLAGS announcement: every element is an atom, and every atom
beginning with the sigil is a known system flag. -/
def well_formed_flags : List imap_arg → Bool
  | [] => true
  | .ATOM a :: rest =>
    (if a.data.head? = some '\\' then mail_flag_parse (str_skip a 1) != 0 else true) &&
      well_formed_flags rest
  | _ :: _ => false

/-- The "keyword dropped but still referenced" report for a keyword. -/
def dropped_report (kw : mailbox_keyword) : Report :=
  ⟨Channel.i_error, Msg.keyword_dropped kw.name.name kw.refcount⟩

/-- The names of the keywords of a vocabulary. -/
def keyword_names (keywords : List mailbox_keyword) : List String :=
  keywords.map fun kw => kw.name.name

/-- A report is a "keyword dropped but still referenced" report. -/
def is_dropped_report (r : Report) : Bool :=
  match r.msg with
  | .keyword_dropped _ _ => true
  | _ => false

/-- The state reached from `empty_state` by the announcement
`FLAGS (\Answered foo)` followed by a FETCH of sequence 1 with `FLAGS (foo)`. -/
def example_foo_fetched : State :=
  (mailbox_state_handle_fetch example_ext
    (mailbox_state_set_flags empty_state (.LIST [.ATOM "\\Answered", .ATOM "foo"])).state 1
    (.LIST [.ATOM "FLAGS", .LIST [.ATOM "foo"]])).state

/-- The keys of the Message-Id registry. -/
def registry_keys (source : mailbox_source) : List String :=
  source.messages.map fun g => g.message_id

/-- The elements of an example ENVELOPE list whose 10th field is the string `id`. -/
def example_envelope (id : String) : List imap_arg :=
  [.NIL, .NIL, .NIL, .NIL, .NIL, .NIL, .NIL, .NIL, .NIL, .STRING id]

/-- A well-formed PERMANENTFLAGS list: every element is an atom, and every atom
beginning with the sigil is the wildcard `\*` or a known system flag. -/
def well_formed_permanent : List imap_arg → Bool
  | [] => true
  | .ATOM a :: rest =>
    (if a.data.head? = some '\\' then
      strcmp_eq a "\\*" || mail_flag_parse (str_skip a 1) != 0 else true) &&
      well_formed_permanent rest
  | _ :: _ => false

/-- The wildcard atom `\*` appears in the list. -/
def names_wildcard : List imap_arg → Bool
  | [] => false
  | .ATOM a :: rest => strcmp_eq a "\\*" || names_wildcard rest
  | _ :: rest => names_wildcard rest

/-- The "not introduced with FLAGS" report for an atom. -/
def not_introduced_report (a : String) : Report :=
  ⟨Channel.i_error, Msg.permanentflag_not_introduced a⟩

/-- The keyword atoms of a list that are absent from a vocabulary, in order. -/
def unknown_atoms (names : List String) (l : List imap_arg) : List String :=
  (keyword_atoms l).filter fun a => decide (a ∉ names)

/-- The "not in PERMANENTFLAGS" warning for a keyword. -/
def not_permanent_warning (kw : mailbox_keyword) : Report :=
  ⟨Channel.i_warning, Msg.keyword_not_permanent kw.name.name⟩

/-- The channel the claim C20 assigns to each message of the FETCH handler. -/
def claimed_channel : Msg → Channel
  | .fetch_not_list => .client_input_error
  | .uid_changed _ _ _ => .client_input_error
  | .message_id_changed _ _ _ => .client_input_error
  | .flags_non_atoms => .client_input_error
  | .invalid_system_flag _ => .client_input_error
  | .keyword_not_in_flags _ => .client_input_error
  | .flags_changed_owned_message => .client_state_error
  | .owned_flag_changed _ _ => .client_state_error
  | .owned_keyword_changed _ _ => .client_state_error
  | .unexpected_header _ => .client_input_error
  | .header_changed _ _ _ _ => .client_state_error
  | .flags_not_list => .client_input_error
  | .broken_internaldate => .client_input_error
  | .internaldate_changed _ _ _ => .client_state_error
  | .field_changed _ _ _ _ _ => .client_state_error
  | .size_changed _ _ _ _ _ => .client_state_error
  | .broken_header_fields => .client_input_error
  | .keyword_dropped _ _ => .i_error
  | .permanentflag_not_introduced _ => .i_error
  | .keyword_not_permanent _ => .i_warning

/-- The channel each message of `mailbox-state.c` is reported through: as
claimed, but for a changed INTERNALDATE (`client_input_error`), a keyword used
without being in FLAGS and an unexpected header (`client_state_error`). -/
def code_channel : Msg → Channel
  | .internaldate_changed _ _ _ => .client_input_error
  | .keyword_not_in_flags _ => .client_state_error
  | .unexpected_header _ => .client_state_error
  | m => claimed_channel m

/-- Every report of a log went through the channel `code_channel` gives. -/
def classified (log : List Report) : Prop := ∀ r ∈ log, r.channel = code_channel r.msg

/-- An example state for the session of index 0: the capacity is 4 bytes and
the vocabulary holds the five keywords `k0` .. `k4`, of which `k0` and `k4`
belong to this session; sequence 1 holds UID 5, whose message belongs to no
session, with known flags, no keyword set, and Clean. -/
def example_keywords_state : State :=
  { error_quit := false
    client_idx := 0
    view :=
      { uidmap := [5]
        messages := [⟨some 0, MAIL_FLAGS_SET, [0, 0, 0, 0], 1, FLAGCHANGE_DIRTY_NO⟩]
        keywords := [⟨⟨"k0", 1⟩, 0, 1, false, false⟩, ⟨⟨"k1", 0⟩, 0, 1, false, false⟩,
          ⟨⟨"k2", 0⟩, 0, 1, false, false⟩, ⟨⟨"k3", 0⟩, 0, 1, false, false⟩,
          ⟨⟨"k4", 1⟩, 0, 1, false, false⟩]
        keyword_bitmask_alloc_size := 4
        flags_counter := 1
        keywords_can_create_more := false }
    storage :=
      { assign_flag_owners := true
        flags_owner_client_idx1 := [0, 0, 0, 0, 0, 0]
        static_metadata := [⟨5, 0, false, 0, some 0⟩]
        keyword_names := [⟨"k0", 1⟩, ⟨"k1", 0⟩, ⟨"k2", 0⟩, ⟨"k3", 0⟩, ⟨"k4", 1⟩] }
    source := ⟨[example_message]⟩
    log := [] }

/-- The stored header names are pairwise distinct under `strcasecmp`. -/
def distinct_header_names (headers : List message_header) : Prop :=
  headers.Pairwise fun a b => strcasecmp_eq a.name b.name = false

/-! ## Theorems -/

theorem set_flags_loop_log (alloc : Nat) (args : List imap_arg) (v : flags_loop_vars) :
    ∃ extra, (set_flags_loop alloc args v).vars.log = v.log ++ extra ∧
      ∀ r ∈ extra, loop_msg r.msg = true := by
  induction args generalizing v with
  | nil => exact ⟨[], by simp [set_flags_loop, flags_loop_end.vars]⟩
  | cons a args ih =>
    cases a with
    | ATOM atom =>
      simp only [set_flags_loop]
      split
      · split
        · exact ih _
        · obtain ⟨e, he, hr⟩ := ih { v with log := client_input_error v.log (Msg.invalid_system_flag atom) }
          refine ⟨⟨Channel.client_input_error, Msg.invalid_system_flag atom⟩ :: e, ?_, ?_⟩
          · rw [he]; simp [client_input_error]
          · intro r hr'
            rcases List.mem_cons.1 hr' with h | h
            · subst h; rfl
            · exact hr r h
      · split
        · obtain ⟨e, he, hr⟩ := ih { v with log := client_state_error v.log (Msg.keyword_not_in_flags atom) }
          refine ⟨⟨Channel.client_state_error, Msg.keyword_not_in_flags atom⟩ :: e, ?_, ?_⟩
          · rw [he]; simp [client_state_error]
          · intro r hr'
            rcases List.mem_cons.1 hr' with h | h
            · subst h; rfl
            · exact hr r h
        · split
          · split
            · exact ⟨[], by simp [flags_loop_end.vars]⟩
            · exact ih _
          · exact ⟨[], by simp [flags_loop_end.vars]⟩
    | NIL => exact ⟨[⟨Channel.client_input_error, Msg.flags_non_atoms⟩], by simp [set_flags_loop, flags_loop_end.vars, client_input_error, loop_msg]⟩
    | STRING _ => exact ⟨[⟨Channel.client_input_error, Msg.flags_non_atoms⟩], by simp [set_flags_loop, flags_loop_end.vars, client_input_error, loop_msg]⟩
    | LITERAL _ => exact ⟨[⟨Channel.client_input_error, Msg.flags_non_atoms⟩], by simp [set_flags_loop, flags_loop_end.vars, client_input_error, loop_msg]⟩
    | LITERAL_SIZE _ => exact ⟨[⟨Channel.client_input_error, Msg.flags_non_atoms⟩], by simp [set_flags_loop, flags_loop_end.vars, client_input_error, loop_msg]⟩
    | LIST _ => exact ⟨[⟨Channel.client_input_error, Msg.flags_non_atoms⟩], by simp [set_flags_loop, flags_loop_end.vars, client_input_error, loop_msg]⟩

theorem countP_loop_log (P : Report → Bool) (hP : ∀ r, loop_msg r.msg = true → P r = false)
    (alloc : Nat) (args : List imap_arg) (v : flags_loop_vars) :
    (set_flags_loop alloc args v).vars.log.countP P = v.log.countP P := by
  obtain ⟨e, he, hr⟩ := set_flags_loop_log alloc args v
  rw [he, List.countP_append]
  have : e.countP P = 0 := by
    rw [List.countP_eq_zero]
    intro r hr'
    simp [hP r (hr r hr')]
  omega

theorem check_flags_loop_count (c old new : Nat) (e : Bool) (i : Nat) (owners : List Nat) :
    ∀ (k : Nat) (log : List Report),
    owned_flag_reports i (check_flags_loop c old new e owners k log) =
      owned_flag_reports i log +
        (if k ≤ i ∧ flag_bit old i ≠ flag_bit new i ∧ owners.get? (i - k) = some c then 1 else 0) := by
  induction owners with
  | nil => intro k log; simp [check_flags_loop]
  | cons o os ih =>
    intro k log
    simp only [check_flags_loop]
    rw [ih]
    by_cases hki : k = i
    · subst hki
      have h1 : ¬ (k + 1 ≤ k) := by omega
      simp only [h1, false_and, if_false, Nat.sub_self, le_refl, true_and, List.get?_cons_zero,
        Option.some.injEq, add_zero]
      by_cases hd : flag_bit old k ≠ flag_bit new k
      · by_cases ho : o = c
        · subst ho
          have hd' : ((old &&& 1 <<< k != 0) != (new &&& 1 <<< k != 0)) = true := by
            simpa [flag_bit, bne_iff_ne] using hd
          simp [hd, hd', owned_flag_reports, client_state_error, List.countP_append, names_flag]
        · have : (o == c) = false := by simpa using ho
          simp [hd, ho, this]
      · have hd' : ((old &&& 1 <<< k != 0) != (new &&& 1 <<< k != 0)) = false := by
          simp only [flag_bit, ne_eq, not_not] at hd
          simp [hd]
        simp [hd, hd']
    · have hlog : owned_flag_reports i
          (if ((old &&& 1 <<< k != 0) != (new &&& 1 <<< k != 0) && o == c) = true then
            client_state_error log (Msg.owned_flag_changed k e) else log) =
          owned_flag_reports i log := by
        split
        · simp [owned_flag_reports, client_state_error, List.countP_append, names_flag, hki]
        · rfl
      rw [hlog]
      by_cases hlt : k < i
      · have h2 : i - k = (i - (k + 1)) + 1 := by omega
        have h3 : k + 1 ≤ i := hlt
        have h4 : k ≤ i := by omega
        simp [h2, h3, h4]
      · have h3 : ¬ (k + 1 ≤ i) := by omega
        have h4 : ¬ (k ≤ i) := by omega
        simp [h3, h4]

theorem check_keywords_loop_count (P : Report → Bool)
    (hP : ∀ r, (∃ n e, r.msg = Msg.owned_keyword_changed n e) → P r = false)
    (c : Nat) (old : msg_old_flags) (kb : List Nat)
    (keywords : List mailbox_keyword) (e : Bool) (is : List Nat) :
    ∀ log, (check_keywords_loop c old kb keywords e is log).1.countP P = log.countP P := by
  induction is with
  | nil => intro log; simp [check_keywords_loop]
  | cons i is ih =>
    intro log
    simp only [check_keywords_loop]
    cases hb : kb.get? (i / 8) with
    | none => rfl
    | some b =>
      simp only []
      generalize (if i ≥ old.kw_alloc_size then false
        else (old.keyword_bitmask.getD (i / 8) 0 &&& (1 <<< (i % 8))) != 0) = old_set
      by_cases hd : (old_set != (b &&& 1 <<< (i % 8) != 0)) = true
      · simp only [hd, if_true]
        cases hk : keywords.get? i with
        | none => rfl
        | some kw =>
          simp only []
          rw [ih]
          split
          · simp [client_state_error, List.countP_append, hP]
          · rfl
      · simp only [hd]
        exact ih _

theorem store_get (s : State) (m : Nat) (kws : List mailbox_keyword)
    (md md0 : message_metadata_dynamic) (log : List Report)
    (hm : s.view.messages.get? m = some md0) :
    (s.store m kws md log).view.messages.get? m = some md := by
  have hlt : m < s.view.messages.length := by
    rcases Nat.lt_or_ge m s.view.messages.length with h | h
    · exact h
    · rw [List.get?_eq_none.2 h] at hm; cases hm
  simp [State.store, List.get?_eq_getElem?, List.getElem?_set, hlt]

theorem names_flag_loop_msg (i : Nat) (r : Report) (h : loop_msg r.msg = true) :
    names_flag i r = false := by
  cases r with
  | mk c msg => cases msg <;> simp_all [names_flag, loop_msg]

/-- C1 (as amended): per-bit ownership check for system flags.  With
`assign_flag_owners` on, for a message whose canonical metadata is bound and
not owned by the observing session, whose flags were initialized and whose
dirty state is Clean, a call of `message_metadata_set_flags` that returns adds
exactly one "Owned flag changed" report naming flag `i` when bit `i` differs
between the flags before and after the call and the observing session IS the
assigned owner of the bit, and adds none for that bit otherwise (in particular
none when the observing session is not the owner). -/
theorem set_flags_owned_flag_report (s s' : State) (args : List imap_arg) (m j i : Nat)
    (metadata : message_metadata_dynamic) (ms : message_metadata_static)
    (hm : s.view.messages.get? m = some metadata)
    (hj : metadata.ms = some j)
    (hms : s.storage.static_metadata.get? j = some ms)
    (hown : ms.owner_client_idx1 ≠ s.client_idx + 1)
    (hassign : s.storage.assign_flag_owners = true)
    (hinit : metadata.mail_flags &&& MAIL_FLAGS_SET ≠ 0)
    (hclean : metadata.flagchange_dirty_type = FLAGCHANGE_DIRTY_NO)
    (hret : message_metadata_set_flags s args m = .ok () s')
    (metadata' : message_metadata_dynamic)
    (hm' : s'.view.messages.get? m = some metadata') :
    owned_flag_reports i s'.log = owned_flag_reports i s.log +
      (if flag_bit metadata.mail_flags i ≠ flag_bit metadata'.mail_flags i ∧
          s.storage.flags_owner_client_idx1.get? i = some (s.client_idx + 1) then 1 else 0) := by
  unfold message_metadata_set_flags at hret
  rw [hm] at hret
  simp only at hret
  split at hret
  · cases hret
  · have hlog := countP_loop_log (names_flag i) (names_flag_loop_msg i)
      s.view.keyword_bitmask_alloc_size args
      ⟨0, (mailbox_keywords_clear s.view.keyword_bitmask_alloc_size s.view.keywords
        metadata.keyword_bitmask).1, (mailbox_keywords_clear s.view.keyword_bitmask_alloc_size
        s.view.keywords metadata.keyword_bitmask).2, s.log⟩
    cases hloop : set_flags_loop s.view.keyword_bitmask_alloc_size args
      ⟨0, (mailbox_keywords_clear s.view.keyword_bitmask_alloc_size s.view.keywords
        metadata.keyword_bitmask).1, (mailbox_keywords_clear s.view.keyword_bitmask_alloc_size
        s.view.keywords metadata.keyword_bitmask).2, s.log⟩ with
    | abort why v => rw [hloop] at hret; cases hret
    | non_atom v =>
      rw [hloop] at hret hlog
      simp only [Outcome.ok.injEq, true_and] at hret
      subst hret
      rw [store_get _ _ _ _ _ _ hm] at hm'
      cases hm'
      simp only [flags_loop_end.vars] at hlog
      simp [owned_flag_reports, State.store, hlog]
    | eol v =>
      rw [hloop] at hret hlog
      simp only [flags_loop_end.vars] at hlog
      simp only [flag_owner_checks, snapshot_old_flags, hinit, hclean, hj, hms, hown, hassign,
        ne_eq, not_true_eq_false, or_self, if_false, if_true, check_unexpected_flag_changes] at hret
      cases hchk : check_keywords_loop (s.client_idx + 1)
        { flags := metadata.mail_flags
          keyword_bitmask := if metadata.keyword_bitmask = [] then
            List.replicate s.view.keyword_bitmask_alloc_size 0
            else List.take s.view.keyword_bitmask_alloc_size metadata.keyword_bitmask
          kw_alloc_size := s.view.keyword_bitmask_alloc_size }
        v.keyword_bitmask v.keywords ms.expunged
        (List.range s.view.keyword_bitmask_alloc_size)
        (check_flags_loop (s.client_idx + 1) metadata.mail_flags (v.flags ||| MAIL_FLAGS_SET)
          ms.expunged s.storage.flags_owner_client_idx1 0 v.log) with
      | mk log ab =>
        have hk := check_keywords_loop_count (names_flag i)
          (by rintro ⟨c, msg⟩ ⟨n, e, h⟩; simp only at h; subst h; rfl)
          (s.client_idx + 1)
          { flags := metadata.mail_flags
            keyword_bitmask := if metadata.keyword_bitmask = [] then
              List.replicate s.view.keyword_bitmask_alloc_size 0
              else List.take s.view.keyword_bitmask_alloc_size metadata.keyword_bitmask
            kw_alloc_size := s.view.keyword_bitmask_alloc_size }
          v.keyword_bitmask v.keywords ms.expunged
          (List.range s.view.keyword_bitmask_alloc_size)
          (check_flags_loop (s.client_idx + 1) metadata.mail_flags (v.flags ||| MAIL_FLAGS_SET)
            ms.expunged s.storage.flags_owner_client_idx1 0 v.log)
        rw [hchk] at hk
        rw [hchk] at hret
        cases ab with
        | some why => cases hret
        | none =>
          simp only [Outcome.ok.injEq, true_and] at hret
          subst hret
          rw [store_get _ _ _ _ _ _ hm] at hm'
          cases hm'
          have hf := check_flags_loop_count (s.client_idx + 1) metadata.mail_flags
            (v.flags ||| MAIL_FLAGS_SET) ms.expunged i s.storage.flags_owner_client_idx1 0 v.log
          simp only [State.store]
          rw [show owned_flag_reports i log = List.countP (names_flag i) log from rfl, hk,
            show List.countP (names_flag i) _ = owned_flag_reports i _ from rfl, hf]
          simp [owned_flag_reports, hlog]

theorem set_flags_loop_atoms (alloc : Nat) (args : List imap_arg)
    (hat : ∀ a ∈ args, a.is_atom = true) :
    ∀ v v', set_flags_loop alloc args v ≠ .non_atom v' := by
  induction args with
  | nil => intro v v' h; simp [set_flags_loop] at h
  | cons a args ih =>
    intro v v'
    have ha := hat a (List.mem_cons_self _ _)
    have ih' := ih (fun b hb => hat b (List.mem_cons_of_mem _ hb))
    cases a with
    | ATOM atom =>
      simp only [set_flags_loop]
      split
      · split
        · exact ih' _ _
        · exact ih' _ _
      · split
        · exact ih' _ _
        · split
          · split
            · simp
            · exact ih' _ _
          · simp
    | NIL => simp [imap_arg.is_atom] at ha
    | STRING _ => simp [imap_arg.is_atom] at ha
    | LITERAL _ => simp [imap_arg.is_atom] at ha
    | LITERAL_SIZE _ => simp [imap_arg.is_atom] at ha
    | LIST _ => simp [imap_arg.is_atom] at ha

theorem set_flags_loop_length (alloc : Nat) (args : List imap_arg) :
    ∀ v, (set_flags_loop alloc args v).vars.keyword_bitmask.length = v.keyword_bitmask.length := by
  induction args with
  | nil => intro v; simp [set_flags_loop, flags_loop_end.vars]
  | cons a args ih =>
    intro v
    cases a with
    | ATOM atom =>
      simp only [set_flags_loop]
      split
      · split
        · exact ih _
        · exact ih _
      · split
        · exact ih _
        · split
          · split
            · rfl
            · rw [ih]; simp
          · rfl
    | NIL => rfl
    | STRING _ => rfl
    | LITERAL _ => rfl
    | LITERAL_SIZE _ => rfl
    | LIST _ => rfl

theorem snapshot_length (alloc : Nat) (metadata : message_metadata_dynamic)
    (h : ¬ (metadata.keyword_bitmask ≠ [] ∧ metadata.keyword_bitmask.length < alloc)) :
    (snapshot_old_flags alloc metadata).keyword_bitmask.length = alloc := by
  simp only [snapshot_old_flags]
  split
  · simp
  · rename_i hne
    have : ¬ metadata.keyword_bitmask.length < alloc := fun hlt => h ⟨hne, hlt⟩
    simp; omega

theorem ownership_loop_msg (r : Report) (h : loop_msg r.msg = true) :
    is_ownership_report r = false := by
  cases r with
  | mk c msg => cases msg <;> simp_all [is_ownership_report, loop_msg]

theorem owned_message_loop_msg (r : Report) (h : loop_msg r.msg = true) :
    is_owned_message_report r = false := by
  cases r with
  | mk c msg => cases msg <;> simp_all [is_owned_message_report, loop_msg]

theorem have_unexpected_changes_spec (view : mailbox_view) (old : msg_old_flags)
    (md : message_metadata_dynamic)
    (h1 : old.kw_alloc_size = view.keyword_bitmask_alloc_size)
    (h2 : md.keyword_bitmask.length = old.kw_alloc_size)
    (h3 : old.keyword_bitmask.length = old.kw_alloc_size) :
    ∃ b, have_unexpected_changes view old md = some b ∧
      (b = true ↔ (md.mail_flags ≠ old.flags ∨ md.keyword_bitmask ≠ old.keyword_bitmask)) := by
  simp only [have_unexpected_changes]
  by_cases hfl : md.mail_flags = old.flags
  · simp only [hfl, bne_self_eq_false, Bool.false_eq_true, if_false, h1.symm, h2,
      lt_self_iff_false, ne_eq, not_true_eq_false, false_or]
    rw [List.take_of_length_le (le_of_eq h3), List.take_of_length_le (le_of_eq h2)]
    refine ⟨_, rfl, ?_⟩
    simp only [bne_iff_ne, ne_eq]
    exact ⟨fun h e => h e.symm, fun h e => h e.symm⟩
  · refine ⟨true, ?_, ?_⟩
    · simp [hfl]
    · simp [hfl]

/-- C2 (as amended): the owned-message check.  First part: for a flag list of
atoms and a message whose canonical metadata names the observing session as
owner, with the initialized marker in the old flags and dirty state Clean, a
call of `message_metadata_set_flags` that returns adds exactly one "Flags
unexpectedly changed for owned message" report when the new flags or the new
keyword bitmask differ from the snapshot taken at the start of the call, and
none when both are equal.  Second part: for every flag list, if the old flags
lack the initialized marker, or the dirty state is not Clean, or the canonical
metadata is unbound, the call adds no ownership report of any kind. -/
theorem set_flags_owned_message_check (s : State) (args : List imap_arg) (m : Nat)
    (metadata : message_metadata_dynamic)
    (hm : s.view.messages.get? m = some metadata) :
    (∀ (j : Nat) (ms : message_metadata_static) (s' : State)
        (metadata' : message_metadata_dynamic),
        (∀ a ∈ args, a.is_atom = true) →
        metadata.ms = some j →
        s.storage.static_metadata.get? j = some ms →
        ms.owner_client_idx1 = s.client_idx + 1 →
        metadata.mail_flags &&& MAIL_FLAGS_SET ≠ 0 →
        metadata.flagchange_dirty_type = FLAGCHANGE_DIRTY_NO →
        message_metadata_set_flags s args m = .ok () s' →
        s'.view.messages.get? m = some metadata' →
        s'.log.countP is_owned_message_report = s.log.countP is_owned_message_report +
          (if metadata'.mail_flags ≠
                (snapshot_old_flags s.view.keyword_bitmask_alloc_size metadata).flags ∨
              metadata'.keyword_bitmask ≠
                (snapshot_old_flags s.view.keyword_bitmask_alloc_size metadata).keyword_bitmask
            then 1 else 0)) ∧
    ((metadata.mail_flags &&& MAIL_FLAGS_SET = 0 ∨
        metadata.flagchange_dirty_type ≠ FLAGCHANGE_DIRTY_NO ∨ metadata.ms = none) →
      (message_metadata_set_flags s args m).state.log.countP is_ownership_report =
        s.log.countP is_ownership_report) := by
  constructor
  · intro j ms s' metadata' hat hj hms hown hinit hclean hret hm'
    unfold message_metadata_set_flags at hret
    rw [hm] at hret
    simp only at hret
    split at hret
    · cases hret
    · rename_i hoob
      have hlog := countP_loop_log is_owned_message_report owned_message_loop_msg
        s.view.keyword_bitmask_alloc_size args
        ⟨0, (mailbox_keywords_clear s.view.keyword_bitmask_alloc_size s.view.keywords
          metadata.keyword_bitmask).1, (mailbox_keywords_clear s.view.keyword_bitmask_alloc_size
          s.view.keywords metadata.keyword_bitmask).2, s.log⟩
      have hlen := set_flags_loop_length s.view.keyword_bitmask_alloc_size args
        ⟨0, (mailbox_keywords_clear s.view.keyword_bitmask_alloc_size s.view.keywords
          metadata.keyword_bitmask).1, (mailbox_keywords_clear s.view.keyword_bitmask_alloc_size
          s.view.keywords metadata.keyword_bitmask).2, s.log⟩
      have hsnap := snapshot_length s.view.keyword_bitmask_alloc_size metadata hoob
      cases hloop : set_flags_loop s.view.keyword_bitmask_alloc_size args
        ⟨0, (mailbox_keywords_clear s.view.keyword_bitmask_alloc_size s.view.keywords
          metadata.keyword_bitmask).1, (mailbox_keywords_clear s.view.keyword_bitmask_alloc_size
          s.view.keywords metadata.keyword_bitmask).2, s.log⟩ with
      | abort why v => rw [hloop] at hret; cases hret
      | non_atom v => exact absurd hloop (set_flags_loop_atoms _ _ hat _ _)
      | eol v =>
        rw [hloop] at hret hlog hlen
        simp only [flags_loop_end.vars, mailbox_keywords_clear, List.length_replicate] at hlog hlen
        have hinit' : (snapshot_old_flags s.view.keyword_bitmask_alloc_size metadata).flags &&&
            MAIL_FLAGS_SET ≠ 0 := hinit
        obtain ⟨b, hb, hiff⟩ := have_unexpected_changes_spec { s.view with keywords := v.keywords }
          (snapshot_old_flags s.view.keyword_bitmask_alloc_size metadata)
          { ms := some j, mail_flags := v.flags ||| MAIL_FLAGS_SET,
            keyword_bitmask := v.keyword_bitmask, fetch_refcount := metadata.fetch_refcount,
            flagchange_dirty_type := FLAGCHANGE_DIRTY_NO } rfl hlen hsnap
        simp only [flag_owner_checks, hinit', hclean, hj, hms, hown, hb,
          ne_eq, not_true_eq_false, or_self, if_false, if_true] at hret
        cases b with
        | true =>
          simp only [Outcome.ok.injEq, true_and] at hret
          subst hret
          rw [store_get _ _ _ _ _ _ hm] at hm'
          cases hm'
          have hch := hiff.1 rfl
          simp only [] at hch
          rw [if_pos hch]
          simp [State.store, client_state_error, List.countP_append, hlog,
            is_owned_message_report]
        | false =>
          simp only [Outcome.ok.injEq, true_and] at hret
          subst hret
          rw [store_get _ _ _ _ _ _ hm] at hm'
          cases hm'
          have hch : ¬ _ := fun h => Bool.false_ne_true (hiff.2 h)
          simp only [] at hch
          rw [if_neg hch]
          simp [State.store, hlog]
  · intro hskip
    unfold message_metadata_set_flags
    rw [hm]
    simp only
    split
    · rfl
    · have hlog := countP_loop_log is_ownership_report ownership_loop_msg
        s.view.keyword_bitmask_alloc_size args
        ⟨0, (mailbox_keywords_clear s.view.keyword_bitmask_alloc_size s.view.keywords
          metadata.keyword_bitmask).1, (mailbox_keywords_clear s.view.keyword_bitmask_alloc_size
          s.view.keywords metadata.keyword_bitmask).2, s.log⟩
      cases hloop : set_flags_loop s.view.keyword_bitmask_alloc_size args
        ⟨0, (mailbox_keywords_clear s.view.keyword_bitmask_alloc_size s.view.keywords
          metadata.keyword_bitmask).1, (mailbox_keywords_clear s.view.keyword_bitmask_alloc_size
          s.view.keywords metadata.keyword_bitmask).2, s.log⟩ with
      | abort why v =>
        rw [hloop] at hlog
        simpa [Outcome.state, State.store, flags_loop_end.vars] using hlog
      | non_atom v =>
        rw [hloop] at hlog
        simpa [Outcome.state, State.store, flags_loop_end.vars] using hlog
      | eol v =>
        rw [hloop] at hlog
        have hchk : flag_owner_checks s { s.view with keywords := v.keywords }
            (snapshot_old_flags s.view.keyword_bitmask_alloc_size metadata)
            { metadata with keyword_bitmask := v.keyword_bitmask,
                            mail_flags := v.flags ||| MAIL_FLAGS_SET } v.log = (v.log, none) := by
          simp only [flag_owner_checks, snapshot_old_flags]
          rcases hskip with h | h | h
          · simp [h]
          · simp [h]
          · simp [h]
        simp only [hchk]
        simpa [Outcome.state, State.store, flags_loop_end.vars] using hlog

/-- C1, counterexample: `\Seen` (bit 3) is owned by session 0 and the message by
a third session.  Session 1, which does not own the bit, sees `\Seen` toggle on
a bound, initialized, Clean message: no "Owned flag changed" report is made,
where the claim demands one.  Session 0, the owner of the bit, sees the same
toggle: one report is made, where the claim demands none. -/
theorem nonowner_flag_change_not_reported :
    (example_state 1 3 MAIL_FLAGS_SET [0, 0, 0, 0] 0).storage.flags_owner_client_idx1.get? 3 =
        some (0 + 1) ∧
      flag_bit MAIL_FLAGS_SET 3 = false ∧
      ((message_metadata_set_flags (example_state 1 3 MAIL_FLAGS_SET [0, 0, 0, 0] 0)
          [.ATOM "\\Seen"] 0).state.view.messages.map fun md => flag_bit md.mail_flags 3) =
        [true] ∧
      owned_flag_reports 3
          (message_metadata_set_flags (example_state 1 3 MAIL_FLAGS_SET [0, 0, 0, 0] 0)
            [.ATOM "\\Seen"] 0).state.log = 0 ∧
      owned_flag_reports 3
          (message_metadata_set_flags (example_state 0 3 MAIL_FLAGS_SET [0, 0, 0, 0] 0)
            [.ATOM "\\Seen"] 0).state.log = 1 := by
  decide

/-- C1, witness: the owner of `\Seen` (session 0) sees the bit toggle, and
one report naming flag 3 is added. -/
theorem set_flags_owned_flag_report_witness :
    owned_flag_reports 3
        (message_metadata_set_flags (example_state 0 3 MAIL_FLAGS_SET [0, 0, 0, 0] 0)
          [.ATOM "\\Seen"] 0).state.log =
      owned_flag_reports 3 (example_state 0 3 MAIL_FLAGS_SET [0, 0, 0, 0] 0).log +
        (if flag_bit MAIL_FLAGS_SET 3 ≠ flag_bit (8 ||| MAIL_FLAGS_SET) 3 ∧
            (example_state 0 3 MAIL_FLAGS_SET [0, 0, 0, 0] 0).storage.flags_owner_client_idx1.get? 3 =
              some (0 + 1) then 1 else 0) :=
  set_flags_owned_flag_report (example_state 0 3 MAIL_FLAGS_SET [0, 0, 0, 0] 0)
    (message_metadata_set_flags (example_state 0 3 MAIL_FLAGS_SET [0, 0, 0, 0] 0)
      [.ATOM "\\Seen"] 0).state
    [.ATOM "\\Seen"] 0 0 3 ⟨some 0, MAIL_FLAGS_SET, [0, 0, 0, 0], 1, FLAGCHANGE_DIRTY_NO⟩
    ⟨5, 0, false, 3, some 0⟩ (by decide) (by decide) (by decide) (by decide) (by decide)
    (by decide) (by decide) (by decide)
    ⟨some 0, 8 ||| MAIL_FLAGS_SET, [0, 0, 0, 0], 1, FLAGCHANGE_DIRTY_NO⟩ (by decide)

/-- C2, counterexample: session 0 owns the message, whose flags are initialized
and Clean.  The flag list `(foo "bar")` holds a quoted string: the call sets
the bit of `foo`, reports the non-atom and returns, so the keyword bitmask
differs from the snapshot and yet no "Flags unexpectedly changed for owned
message" report is made, where the claim demands one. -/
theorem owned_message_change_not_reported :
    (message_metadata_set_flags (example_state 0 1 MAIL_FLAGS_SET [0, 0, 0, 0] 0)
        [.ATOM "foo", .STRING "bar"] 0).state.log =
        [⟨Channel.client_input_error, Msg.flags_non_atoms⟩] ∧
      ((message_metadata_set_flags (example_state 0 1 MAIL_FLAGS_SET [0, 0, 0, 0] 0)
          [.ATOM "foo", .STRING "bar"] 0).state.view.messages.map fun md => md.keyword_bitmask) =
        [[1, 0, 0, 0]] ∧
      (snapshot_old_flags 4 ⟨some 0, MAIL_FLAGS_SET, [0, 0, 0, 0], 1, FLAGCHANGE_DIRTY_NO⟩).keyword_bitmask =
        [0, 0, 0, 0] ∧
      (message_metadata_set_flags (example_state 0 1 MAIL_FLAGS_SET [0, 0, 0, 0] 0)
        [.ATOM "foo", .STRING "bar"] 0).state.log.countP is_owned_message_report = 0 := by
  decide

/-- C2, witness: the owning session 0 sees `\Seen` appear on its Clean message,
and one report is added. -/
theorem set_flags_owned_message_check_witness :
    (message_metadata_set_flags (example_state 0 1 MAIL_FLAGS_SET [0, 0, 0, 0] 0)
        [.ATOM "\\Seen"] 0).state.log.countP is_owned_message_report =
      (example_state 0 1 MAIL_FLAGS_SET [0, 0, 0, 0] 0).log.countP is_owned_message_report +
        (if (8 ||| MAIL_FLAGS_SET) ≠
              (snapshot_old_flags 4
                ⟨some 0, MAIL_FLAGS_SET, [0, 0, 0, 0], 1, FLAGCHANGE_DIRTY_NO⟩).flags ∨
            [0, 0, 0, 0] ≠
              (snapshot_old_flags 4
                ⟨some 0, MAIL_FLAGS_SET, [0, 0, 0, 0], 1, FLAGCHANGE_DIRTY_NO⟩).keyword_bitmask
          then 1 else 0) :=
  (set_flags_owned_message_check (example_state 0 1 MAIL_FLAGS_SET [0, 0, 0, 0] 0)
    [.ATOM "\\Seen"] 0 ⟨some 0, MAIL_FLAGS_SET, [0, 0, 0, 0], 1, FLAGCHANGE_DIRTY_NO⟩
    (by decide)).1 0 ⟨5, 0, false, 1, some 0⟩
    (message_metadata_set_flags (example_state 0 1 MAIL_FLAGS_SET [0, 0, 0, 0] 0)
      [.ATOM "\\Seen"] 0).state
    ⟨some 0, 8 ||| MAIL_FLAGS_SET, [0, 0, 0, 0], 1, FLAGCHANGE_DIRTY_NO⟩
    (by decide) (by decide) (by decide) (by decide) (by decide) (by decide) (by decide)
    (by decide)

/-- C4, the code at the failing input: a FETCH pair named `RFC822.HEADER` (resp.
`RFC822.TEXT`) with a five-byte literal leaves `header_size` (resp.
`body_size`) at 0, where `BODY[HEADER]` (resp. `BODY[TEXT]`) stores 5; the
name that does reach `header_size` is `RFC822HEADER`, without the dot. -/
theorem rfc822_header_not_mapped :
    ((mailbox_state_handle_fetch example_ext (example_state 0 0 0 [0, 0, 0, 0] 0) 1
        (.LIST [.ATOM "RFC822.HEADER", .LITERAL "abcde"])).state.source.messages.map
        fun g => g.header_size) = [0] ∧
      ((mailbox_state_handle_fetch example_ext (example_state 0 0 0 [0, 0, 0, 0] 0) 1
        (.LIST [.ATOM "BODY[HEADER]", .LITERAL "abcde"])).state.source.messages.map
        fun g => g.header_size) = [5] ∧
      ((mailbox_state_handle_fetch example_ext (example_state 0 0 0 [0, 0, 0, 0] 0) 1
        (.LIST [.ATOM "RFC822.TEXT", .LITERAL "abcde"])).state.source.messages.map
        fun g => g.body_size) = [0] ∧
      ((mailbox_state_handle_fetch example_ext (example_state 0 0 0 [0, 0, 0, 0] 0) 1
        (.LIST [.ATOM "BODY[TEXT]", .LITERAL "abcde"])).state.source.messages.map
        fun g => g.body_size) = [5] ∧
      ((mailbox_state_handle_fetch example_ext (example_state 0 0 0 [0, 0, 0, 0] 0) 1
        (.LIST [.ATOM "RFC822HEADER", .LITERAL "abcde"])).state.source.messages.map
        fun g => g.header_size) = [5] := by
  decide

/-- C5, the code at the failing input: `full_size` is 20 and the pair
`RFC822.SIZE 18446744073709551615` is reported.  The parsed size equals
`(uoff_t)-1`, the marker for "not RFC822.SIZE", so the length of the text, 20,
is taken as the size: no violation is reported and the field stays 20, where
the claim demands one violation and the field 18446744073709551615. -/
theorem rfc822_size_sentinel_collision :
    strtoull "18446744073709551615" = 18446744073709551615 ∧
      (mailbox_state_handle_fetch example_ext (example_state 0 0 0 [0, 0, 0, 0] 0) 1
        (.LIST [.ATOM "RFC822.SIZE", .ATOM "18446744073709551615"])).state.log = [] ∧
      ((mailbox_state_handle_fetch example_ext (example_state 0 0 0 [0, 0, 0, 0] 0) 1
        (.LIST [.ATOM "RFC822.SIZE", .ATOM "18446744073709551615"])).state.source.messages.map
        fun g => g.full_size) = [20] := by
  decide

/-- C7, the code at the failing input: sequence 1 holds UID 5 and its metadata
is bound to the canonical metadata of UID 5; the reply `(UID 6 FLAGS (\Seen))`
is reported as "UID changed" and UID 6 is stored, then the assertion
`metadata->ms->uid == uid` fails: the call aborts and the FLAGS pair is not
processed. -/
theorem uid_change_on_bound_metadata_aborts :
    mailbox_state_handle_fetch example_ext (example_state 0 0 MAIL_FLAGS_SET [0, 0, 0, 0] 0) 1
        (.LIST [.ATOM "UID", .ATOM "6", .ATOM "FLAGS", .LIST [.ATOM "\\Seen"]]) =
      .abort Abort.assert_failed
        { example_state 0 0 MAIL_FLAGS_SET [0, 0, 0, 0] 0 with
          view := { (example_state 0 0 MAIL_FLAGS_SET [0, 0, 0, 0] 0).view with uidmap := [6] }
          log := [⟨Channel.client_input_error, Msg.uid_changed 1 5 6⟩] } := by
  decide

/-- C8, the code at the failing input: the keyword `foo` is carried by no
message and has refcount 0, so the invariant holds; after the flag list
`(foo foo)` is applied to the one message its bit is set once and the refcount
is 2, so the invariant is broken. -/
theorem duplicate_keyword_breaks_refcount :
    refcount_invariant (example_state 0 0 0 [0, 0, 0, 0] 0).view = true ∧
      ((message_metadata_set_flags (example_state 0 0 0 [0, 0, 0, 0] 0)
        [.ATOM "foo", .ATOM "foo"] 0).state.view.keywords.map fun kw => kw.refcount) = [2] ∧
      carriers (message_metadata_set_flags (example_state 0 0 0 [0, 0, 0, 0] 0)
        [.ATOM "foo", .ATOM "foo"] 0).state.view 0 = 1 ∧
      refcount_invariant (message_metadata_set_flags (example_state 0 0 0 [0, 0, 0, 0] 0)
        [.ATOM "foo", .ATOM "foo"] 0).state.view = false := by
  decide

/-- C10, the code at the failing input: on a view with an empty vocabulary and
no capacity the announcement `FLAGS (foo \Bogus)` adds `foo`, then returns the
error result at the unknown system flag without growing the capacity: one
keyword, zero bytes.  A later `FLAGS (foo)` of a FETCH finds `foo` at index 0
and the assertion `idx/8 < keyword_bitmask_alloc_size` fails. -/
theorem failed_announcement_leaves_capacity_short :
    mailbox_state_set_flags empty_state (.LIST [.ATOM "foo", .ATOM "\\Bogus"]) =
        .ok (-1) (mailbox_state_set_flags empty_state
          (.LIST [.ATOM "foo", .ATOM "\\Bogus"])).state ∧
      (mailbox_state_set_flags empty_state
        (.LIST [.ATOM "foo", .ATOM "\\Bogus"])).state.view.keywords.length = 1 ∧
      (mailbox_state_set_flags empty_state
        (.LIST [.ATOM "foo", .ATOM "\\Bogus"])).state.view.keyword_bitmask_alloc_size = 0 ∧
      message_metadata_set_flags
          (mailbox_state_set_flags empty_state (.LIST [.ATOM "foo", .ATOM "\\Bogus"])).state
          [.ATOM "foo"] 0 =
        .abort Abort.assert_failed
          (mailbox_state_set_flags empty_state (.LIST [.ATOM "foo", .ATOM "\\Bogus"])).state := by
  decide

/-- C11, the code at the failing input: the field `Subject` is requested twice
for a message with no stored headers.  The first reply returns no such line
(the field is missing), the second returns `Subject: hi`.  The first merge
stores nothing for `Subject`, since an entry of length 0 is not appended, so
the second merge sees the name for the first time: no violation is reported,
where the claim demands exactly one. -/
theorem missing_then_present_header_not_reported :
    ((mailbox_state_handle_fetch example_ext (example_state 0 0 0 [0, 0, 0, 0] 0) 1
        (.LIST [.ATOM "BODY[HEADER.FIELDS", .LIST [.ATOM "Subject"], .ATOM "]",
          .LITERAL "\r\n"])).state.source.messages.map fun g => g.headers) = [[]] ∧
      (mailbox_state_handle_fetch example_ext
        (mailbox_state_handle_fetch example_ext (example_state 0 0 0 [0, 0, 0, 0] 0) 1
          (.LIST [.ATOM "BODY[HEADER.FIELDS", .LIST [.ATOM "Subject"], .ATOM "]",
            .LITERAL "\r\n"])).state 1
        (.LIST [.ATOM "BODY[HEADER.FIELDS", .LIST [.ATOM "Subject"], .ATOM "]",
          .LITERAL "Subject: hi\r\n\r\n"])).state.log = [] ∧
      ((mailbox_state_handle_fetch example_ext
        (mailbox_state_handle_fetch example_ext (example_state 0 0 0 [0, 0, 0, 0] 0) 1
          (.LIST [.ATOM "BODY[HEADER.FIELDS", .LIST [.ATOM "Subject"], .ATOM "]",
            .LITERAL "\r\n"])).state 1
        (.LIST [.ATOM "BODY[HEADER.FIELDS", .LIST [.ATOM "Subject"], .ATOM "]",
          .LITERAL "Subject: hi\r\n\r\n"])).state.source.messages.map fun g => g.headers) =
        [[⟨"Subject", "hi", false⟩]] := by
  decide

/-- C12, the code at the failing input: the field `Received` is requested and
the reply holds two `Received` lines with values `ab` and `cd`.  The joined
buffer is `ab`, a newline, `cd`, but `value_len` grows by the length of the
second value only: the field ends with length 4 and value `ab`, newline, `c`,
where the claim demands length 5. -/
theorem second_header_line_truncated :
    headers_parse [⟨"Received", "ab", false⟩, ⟨"Received", "cd", false⟩]
        [⟨"Received", "", true⟩] [] =
      ([⟨"Received", "ab\nc", false⟩], []) := by
  decide

theorem fetch_select_str (f : str_field) (value : String)
    (hsent : strncmp_eq value f.nil_reply = false) :
    fetch_select f.item_name value = .str f := by
  cases f
  · simp only [str_field.item_name, str_field.nil_reply] at *
    unfold fetch_select
    rw [if_pos (by decide)]
    simp [hsent]
  · simp only [str_field.item_name, str_field.nil_reply] at *
    unfold fetch_select
    rw [if_neg (by decide), if_pos (by decide)]
    simp [hsent]
  · simp only [str_field.item_name, str_field.nil_reply] at *
    unfold fetch_select
    rw [if_neg (by decide), if_neg (by decide), if_pos (by decide)]
    simp [hsent]

theorem str_field_name_ne (f : str_field) :
    strcmp_eq f.item_name "FLAGS" = false ∧ strcmp_eq f.item_name "INTERNALDATE" = false := by
  cases f <;> decide

/-- C3 (as amended): write-once-then-verify for the string fields BODY,
BODYSTRUCTURE and ENVELOPE of a bound Message.  For a pair whose name selects
the field and whose value does not begin with the field's sentinel text: if
the field is unset the value is stored with no report; if the field holds `V`
and the value equals `V` up to the case of ASCII letters (`strcasecmp`), no
report is made and nothing changes; if it differs otherwise, exactly one
consistency violation is reported and the stored value becomes the new one. -/
theorem fetch_pair_string_field (ext : Externals) (s : State) (m j k : Nat)
    (a_str value : String) (v : imap_arg) (rest : List imap_arg)
    (metadata : message_metadata_dynamic) (ms : message_metadata_static) (g : message_global)
    (f : str_field)
    (hm : s.view.messages.get? m = some metadata)
    (hj : metadata.ms = some j)
    (hms : s.storage.static_metadata.get? j = some ms)
    (hk : ms.msg = some k)
    (hg : s.source.messages.get? k = some g)
    (hname : t_str_ucase a_str = f.item_name)
    (hv : fetch_value ext v = some value)
    (hsent : strncmp_eq value f.nil_reply = false) :
    fetch_pair ext s m (.ATOM a_str) v rest =
      match f.get g with
      | none => .ok () (s.set_msg k (f.set g value))
      | some old =>
        if strcasecmp_eq old value then .ok () s
        else .ok ()
          (State.set_msg
            { s with
              log := s.log ++ [⟨Channel.client_state_error,
                Msg.field_changed ms.uid g.message_id f.item_name old value⟩] }
            k (f.set g value)) := by
  have hd : s.view.messages.getD m zero_metadata = metadata := by
    rw [List.getD_eq_getElem?_getD, ← List.get?_eq_getElem?, hm]; rfl
  simp only [fetch_pair, hname, hv, (str_field_name_ne f).1, (str_field_name_ne f).2, hd, hj, hms,
    hk, hg, Bool.false_eq_true, if_false, fetch_pair_msg, fetch_select_str f value hsent,
    client_state_error]

/-- C6: INTERNALDATE is first-value-wins.  For a pair named INTERNALDATE whose
value parses to the timestamp `t`, on bound canonical metadata with stored
internaldate `D`: if `t` is the zero sentinel nothing is stored or reported;
if `D` is 0 and `t` is not, `D` becomes `t` with no report; if `D` is not 0
and `t = D` nothing is reported; if `D` is not 0 and `t` is neither 0 nor `D`
exactly one report is made and the stored value stays `D`. -/
theorem fetch_pair_internaldate (ext : Externals) (s : State) (m j : Nat)
    (a_str value : String) (v : imap_arg) (rest : List imap_arg)
    (metadata : message_metadata_dynamic) (ms : message_metadata_static) (t : Int)
    (hm : s.view.messages.get? m = some metadata)
    (hj : metadata.ms = some j)
    (hms : s.storage.static_metadata.get? j = some ms)
    (hname : t_str_ucase a_str = "INTERNALDATE")
    (hv : fetch_value ext v = some value)
    (ht : ext.imap_parse_datetime value = some t) :
    fetch_pair ext s m (.ATOM a_str) v rest =
      if t = 0 then .ok () s
      else if ms.internaldate = 0 then .ok () (s.set_ms j { ms with internaldate := t })
      else if ms.internaldate = t then .ok () s
      else .ok ()
        { s with
          log := s.log ++ [⟨Channel.client_input_error,
            Msg.internaldate_changed (s.view.uidmap.getD m 0) ms.internaldate t⟩] } := by
  have hd : s.view.messages.getD m zero_metadata = metadata := by
    rw [List.getD_eq_getElem?_getD, ← List.get?_eq_getElem?, hm]; rfl
  have h1 : strcmp_eq "INTERNALDATE" "FLAGS" = false := by decide
  have h2 : strcmp_eq "INTERNALDATE" "INTERNALDATE" = true := by decide
  simp only [fetch_pair, hname, hv, h1, h2, hd, hj, hms, ht, Bool.false_eq_true, if_false,
    if_true, INTERNALDATE_NIL_TIMESTAMP, client_input_error]
  by_cases h0 : t = 0
  · simp [h0]
  · by_cases hD : ms.internaldate = 0
    · simp [h0, hD]
    · by_cases hDt : ms.internaldate = t
      · simp [h0, hD, hDt]
      · simp [h0, hD, hDt]

/-- C3, counterexample: the stored BODY is `("text" "html")` and the value
`("TEXT" "HTML")`, a different string, is reported: no violation is produced
and the stored value is not replaced, where the claim demands one violation
and the new value stored. -/
theorem body_case_change_not_reported :
    "(\"TEXT\" \"HTML\")" ≠ "(\"text\" \"html\")" ∧
      ((example_state 0 0 0 [0, 0, 0, 0] 0).source.messages.map fun g => g.body) =
        [some "(\"text\" \"html\")"] ∧
      (mailbox_state_handle_fetch example_ext (example_state 0 0 0 [0, 0, 0, 0] 0) 1
        (.LIST [.ATOM "BODY", .STRING "(\"TEXT\" \"HTML\")"])).state.log = [] ∧
      ((mailbox_state_handle_fetch example_ext (example_state 0 0 0 [0, 0, 0, 0] 0) 1
        (.LIST [.ATOM "BODY", .STRING "(\"TEXT\" \"HTML\")"])).state.source.messages.map
        fun g => g.body) = [some "(\"text\" \"html\")"] := by
  decide

/-- C3, witness: the stored BODY is `("text" "html")` and `("text" "plain")` is
reported: one violation, and the new value is stored. -/
theorem fetch_pair_string_field_witness :
    fetch_pair example_ext (example_state 0 0 0 [0, 0, 0, 0] 0) 0 (.ATOM "body")
        (.STRING "(\"text\" \"plain\")") [] =
      .ok ()
        (State.set_msg
          { example_state 0 0 0 [0, 0, 0, 0] 0 with
            log := [⟨Channel.client_state_error,
              Msg.field_changed 5 "<1@example>" "BODY" "(\"text\" \"html\")"
                "(\"text\" \"plain\")"⟩] }
          0 { example_message with body := some "(\"text\" \"plain\")" }) :=
  (fetch_pair_string_field example_ext (example_state 0 0 0 [0, 0, 0, 0] 0) 0 0 0 "body"
    "(\"text\" \"plain\")" (.STRING "(\"text\" \"plain\")") []
    ⟨some 0, 0, [0, 0, 0, 0], 1, FLAGCHANGE_DIRTY_NO⟩ ⟨5, 0, false, 0, some 0⟩ example_message
    str_field.body (by decide) (by decide) (by decide) (by decide) (by decide) (by decide)
    (by decide) (by decide)).trans (by decide)

/-- C6, witness: the stored internaldate is that of 1 January 2024 and the
date 2 January 2024 is reported: one report, and the stored value stays. -/
theorem fetch_pair_internaldate_witness :
    fetch_pair example_ext
        (State.set_ms (example_state 0 0 0 [0, 0, 0, 0] 0) 0 ⟨5, 1704067200, false, 0, some 0⟩)
        0 (.ATOM "INTERNALDATE") (.STRING "02-Jan-2024 00:00:00 +0000") [] =
      .ok ()
        { State.set_ms (example_state 0 0 0 [0, 0, 0, 0] 0) 0
            ⟨5, 1704067200, false, 0, some 0⟩ with
          log := [⟨Channel.client_input_error,
            Msg.internaldate_changed 5 1704067200 1704153600⟩] } :=
  (fetch_pair_internaldate example_ext
    (State.set_ms (example_state 0 0 0 [0, 0, 0, 0] 0) 0 ⟨5, 1704067200, false, 0, some 0⟩)
    0 0 "INTERNALDATE" "02-Jan-2024 00:00:00 +0000" (.STRING "02-Jan-2024 00:00:00 +0000") []
    ⟨some 0, 0, [0, 0, 0, 0], 1, FLAGCHANGE_DIRTY_NO⟩ ⟨5, 1704067200, false, 0, some 0⟩
    1704153600 (by decide) (by decide) (by decide) (by decide) (by decide)
    (by decide)).trans (by decide)

theorem dirty_update_table (rc : Nat) (d : flagchange_dirty_type) :
    (rc ≤ 1 → (d = FLAGCHANGE_DIRTY_NO → dirty_update rc d = FLAGCHANGE_DIRTY_NO) ∧
        (d ≠ FLAGCHANGE_DIRTY_NO → dirty_update rc d = FLAGCHANGE_DIRTY_MAYBE)) ∧
      (1 < rc → (d = FLAGCHANGE_DIRTY_YES → dirty_update rc d = FLAGCHANGE_DIRTY_WAITING) ∧
        (d ≠ FLAGCHANGE_DIRTY_YES → dirty_update rc d = d)) ∧
      (dirty_update rc d = FLAGCHANGE_DIRTY_NO ↔ d = FLAGCHANGE_DIRTY_NO) := by
  by_cases h : rc ≤ 1
  · have h' : ¬ 1 < rc := by omega
    cases d <;> simp [dirty_update, h, h']
  · have h' : 1 < rc := by omega
    cases d <;> simp [dirty_update, h, h']

/-- C14: the dirty-state transition table of `message_metadata_set_flags`.  For
every call on a flag list of atoms that returns, the new dirty state is a
function of the old dirty state and `fetch_refcount` alone: with
`fetch_refcount ≤ 1`, NO (Clean) stays NO and every other state becomes MAYBE
(PendingConfirm); with `fetch_refcount > 1`, YES (AwaitingLocalEcho) becomes
WAITING (AwaitingLocalEchoQueued) and every other state is unchanged.  Hence
the new state is NO exactly when the old one is. -/
theorem set_flags_dirty_state (s s' : State) (args : List imap_arg) (m : Nat)
    (metadata metadata' : message_metadata_dynamic)
    (hm : s.view.messages.get? m = some metadata)
    (hat : ∀ a ∈ args, a.is_atom = true)
    (hret : message_metadata_set_flags s args m = .ok () s')
    (hm' : s'.view.messages.get? m = some metadata') :
    metadata'.fetch_refcount = metadata.fetch_refcount ∧
      (metadata.fetch_refcount ≤ 1 →
        (metadata.flagchange_dirty_type = FLAGCHANGE_DIRTY_NO →
          metadata'.flagchange_dirty_type = FLAGCHANGE_DIRTY_NO) ∧
        (metadata.flagchange_dirty_type ≠ FLAGCHANGE_DIRTY_NO →
          metadata'.flagchange_dirty_type = FLAGCHANGE_DIRTY_MAYBE)) ∧
      (1 < metadata.fetch_refcount →
        (metadata.flagchange_dirty_type = FLAGCHANGE_DIRTY_YES →
          metadata'.flagchange_dirty_type = FLAGCHANGE_DIRTY_WAITING) ∧
        (metadata.flagchange_dirty_type ≠ FLAGCHANGE_DIRTY_YES →
          metadata'.flagchange_dirty_type = metadata.flagchange_dirty_type)) ∧
      (metadata'.flagchange_dirty_type = FLAGCHANGE_DIRTY_NO ↔
        metadata.flagchange_dirty_type = FLAGCHANGE_DIRTY_NO) := by
  unfold message_metadata_set_flags at hret
  rw [hm] at hret
  simp only at hret
  split at hret
  · cases hret
  · cases hloop : set_flags_loop s.view.keyword_bitmask_alloc_size args
      ⟨0, (mailbox_keywords_clear s.view.keyword_bitmask_alloc_size s.view.keywords
        metadata.keyword_bitmask).1, (mailbox_keywords_clear s.view.keyword_bitmask_alloc_size
        s.view.keywords metadata.keyword_bitmask).2, s.log⟩ with
    | abort why v => rw [hloop] at hret; cases hret
    | non_atom v => exact absurd hloop (set_flags_loop_atoms _ _ hat _ _)
    | eol v =>
      rw [hloop] at hret
      simp only at hret
      cases hchk : flag_owner_checks s { s.view with keywords := v.keywords }
          (snapshot_old_flags s.view.keyword_bitmask_alloc_size metadata)
          { metadata with keyword_bitmask := v.keyword_bitmask,
                          mail_flags := v.flags ||| MAIL_FLAGS_SET } v.log with
      | mk log ab =>
        rw [hchk] at hret
        cases ab with
        | some why => cases hret
        | none =>
          simp only [Outcome.ok.injEq, true_and] at hret
          subst hret
          rw [store_get _ _ _ _ _ _ hm] at hm'
          cases hm'
          exact ⟨rfl, dirty_update_table _ _⟩

/-- C14, witness: with two fetches outstanding a message awaiting its local
echo (YES) becomes WAITING. -/
theorem set_flags_dirty_state_witness :
    (2 : Nat) = 2 ∧
      (2 ≤ 1 →
        (FLAGCHANGE_DIRTY_YES = FLAGCHANGE_DIRTY_NO →
          FLAGCHANGE_DIRTY_WAITING = FLAGCHANGE_DIRTY_NO) ∧
        (FLAGCHANGE_DIRTY_YES ≠ FLAGCHANGE_DIRTY_NO →
          FLAGCHANGE_DIRTY_WAITING = FLAGCHANGE_DIRTY_MAYBE)) ∧
      (1 < 2 →
        (FLAGCHANGE_DIRTY_YES = FLAGCHANGE_DIRTY_YES →
          FLAGCHANGE_DIRTY_WAITING = FLAGCHANGE_DIRTY_WAITING) ∧
        (FLAGCHANGE_DIRTY_YES ≠ FLAGCHANGE_DIRTY_YES →
          FLAGCHANGE_DIRTY_WAITING = FLAGCHANGE_DIRTY_YES)) ∧
      (FLAGCHANGE_DIRTY_WAITING = FLAGCHANGE_DIRTY_NO ↔
        FLAGCHANGE_DIRTY_YES = FLAGCHANGE_DIRTY_NO) :=
  set_flags_dirty_state example_dirty_state
    (message_metadata_set_flags example_dirty_state [.ATOM "\\Seen"] 0).state
    [.ATOM "\\Seen"] 0 ⟨some 0, MAIL_FLAGS_SET, [0, 0, 0, 0], 2, FLAGCHANGE_DIRTY_YES⟩
    ⟨some 0, 8 ||| MAIL_FLAGS_SET, [0, 0, 0, 0], 2, FLAGCHANGE_DIRTY_WAITING⟩
    (by decide) (by decide) (by decide) (by decide)

theorem dropped_reports_eq (c : Nat) (K : List mailbox_keyword) :
    dropped_reports c K =
      (K.filter fun kw => decide (kw.flags_counter ≠ c) && decide (0 < kw.refcount)).map
        dropped_report := by
  induction K with
  | nil => rfl
  | cons kw K ih =>
    simp only [dropped_reports, List.filter_cons, ih]
    by_cases h1 : kw.flags_counter = c <;> by_cases h2 : 0 < kw.refcount <;>
      simp [h1, h2, dropped_report]

theorem keyword_find_none (a : String) (K : List mailbox_keyword)
    (h : mailbox_view_keyword_find a K = none) : a ∉ keyword_names K := by
  induction K with
  | nil => simp [keyword_names]
  | cons kw K ih =>
    simp only [mailbox_view_keyword_find] at h
    split at h
    · cases h
    · rename_i hne
      simp only [Option.map_eq_none'] at h
      simp only [keyword_names, List.map_cons, List.mem_cons, not_or]
      exact ⟨fun e => hne e.symm, ih h⟩

theorem keyword_find_some (a : String) (K : List mailbox_keyword) (idx : Nat)
    (h : mailbox_view_keyword_find a K = some idx) :
    ∃ pre kw post, K = pre ++ kw :: post ∧ pre.length = idx ∧ kw.name.name = a ∧
      a ∉ keyword_names pre := by
  induction K generalizing idx with
  | nil => simp [mailbox_view_keyword_find] at h
  | cons kw K ih =>
    simp only [mailbox_view_keyword_find] at h
    split at h
    · rename_i he
      cases h
      exact ⟨[], kw, K, rfl, rfl, he, by simp [keyword_names]⟩
    · rename_i hne
      cases hf : mailbox_view_keyword_find a K with
      | none => rw [hf] at h; cases h
      | some i =>
        rw [hf] at h
        simp only [Option.map_some', Option.some.injEq] at h
        obtain ⟨pre, kw', post, hK, hlen, hname, hpre⟩ := ih i hf
        refine ⟨kw :: pre, kw', post, by rw [hK]; rfl, by simp [hlen, h], hname, ?_⟩
        simp only [keyword_names, List.map_cons, List.mem_cons, not_or]
        exact ⟨fun e => hne e.symm, hpre⟩

theorem modify_append_cons {α : Type} (f : α → α) (pre : List α) (x : α) (post : List α) :
    (pre ++ x :: post).modify f pre.length = pre ++ f x :: post := by
  induction pre with
  | nil => rfl
  | cons p pre ih => simp [List.modify_succ_cons, ih]

theorem keyword_name_get_name (names : List mailbox_keyword_name) (a : String) :
    (mailbox_keyword_name_get names a).1.name = a := by
  unfold mailbox_keyword_name_get
  split
  · rename_i n hn
    have := List.find?_some hn
    simpa using this
  · rfl

theorem filter_named_congr (c : Nat) (a : String) (rest : List String)
    (K : List mailbox_keyword) (h : a ∉ keyword_names K) :
    (K.filter fun kw => decide (kw.flags_counter ≠ c) &&
        decide (kw.name.name ∉ a :: rest) && decide (0 < kw.refcount)) =
      K.filter fun kw => decide (kw.flags_counter ≠ c) &&
        decide (kw.name.name ∉ rest) && decide (0 < kw.refcount) := by
  apply List.filter_congr
  intro kw hkw
  have hne : kw.name.name ≠ a := by
    intro e
    apply h
    simp only [keyword_names, List.mem_map]
    exact ⟨kw, hkw, e⟩
  simp [hne]

theorem announce_loop_spec (l : List imap_arg) :
    well_formed_flags l = true →
    ∀ s : State, (keyword_names s.view.keywords).Nodup →
      (announce_loop l s).2 = true ∧ (announce_loop l s).1.log = s.log ∧
      (announce_loop l s).1.view.flags_counter = s.view.flags_counter ∧
      dropped_reports s.view.flags_counter (announce_loop l s).1.view.keywords =
        (s.view.keywords.filter fun kw => decide (kw.flags_counter ≠ s.view.flags_counter) &&
          decide (kw.name.name ∉ keyword_atoms l) && decide (0 < kw.refcount)).map
          dropped_report := by
  induction l with
  | nil =>
    intro _ s _
    refine ⟨rfl, rfl, rfl, ?_⟩
    simp [announce_loop, dropped_reports_eq, keyword_atoms]
  | cons x rest ih =>
    intro hwf s hnd
    cases x with
    | ATOM a =>
      simp only [well_formed_flags, Bool.and_eq_true] at hwf
      obtain ⟨hsig, hrest⟩ := hwf
      by_cases hs : a.data.head? = some '\\'
      · have hp : ¬ mail_flag_parse (str_skip a 1) = 0 := by simpa [hs] using hsig
        simp only [announce_loop, hs, if_true, hp, if_false, keyword_atoms]
        exact ih hrest s hnd
      · simp only [announce_loop, hs, if_false, keyword_atoms]
        cases hf : mailbox_view_keyword_find a s.view.keywords with
        | none =>
          have hnot := keyword_find_none a _ hf
          have hnd1 : (keyword_names (mailbox_view_keyword_add s a).view.keywords).Nodup := by
            simp only [mailbox_view_keyword_add, keyword_names, List.map_append, List.map_cons,
              List.map_nil, keyword_name_get_name]
            rw [List.nodup_append]
            refine ⟨hnd, by simp, ?_⟩
            intro x hx hx'
            simp only [List.mem_singleton] at hx'
            subst hx'
            exact hnot hx
          obtain ⟨h1, h2, h3, h4⟩ := ih hrest (mailbox_view_keyword_add s a) hnd1
          refine ⟨h1, h2, h3, ?_⟩
          have hc : (mailbox_view_keyword_add s a).view.flags_counter = s.view.flags_counter := rfl
          rw [hc] at h4
          rw [h4, filter_named_congr _ _ _ _ hnot]
          simp [mailbox_view_keyword_add, List.filter_append, List.filter_cons]
        | some idx =>
          obtain ⟨pre, kw, post, hK, hlen, hname, hpre⟩ := keyword_find_some a _ idx hf
          simp only
          have hmod : List.modify (fun kw => { kw with flags_counter := s.view.flags_counter })
              idx s.view.keywords =
              pre ++ { kw with flags_counter := s.view.flags_counter } :: post := by
            rw [hK, ← hlen]; exact modify_append_cons _ _ _ _
          rw [hK] at hnd
          have hnd' : (keyword_names pre ++ a :: keyword_names post).Nodup := by
            simpa [keyword_names, hname] using hnd
          have hpost : a ∉ keyword_names post := by
            have := (List.nodup_append.1 hnd').2.1
            exact (List.nodup_cons.1 this).1
          obtain ⟨h1, h2, h3, h4⟩ := ih hrest
            { s with view := { s.view with keywords :=
                pre ++ { kw with flags_counter := s.view.flags_counter } :: post } }
            (by simpa [keyword_names, hname] using hnd')
          rw [hmod]
          refine ⟨h1, h2, h3, ?_⟩
          simp only at h4
          rw [h4, hK]
          simp only [List.filter_append, List.filter_cons, List.map_append]
          rw [filter_named_congr _ _ _ pre hpre, filter_named_congr _ _ _ post hpost]
          simp [hname]
    | NIL => simp [well_formed_flags] at hwf
    | STRING _ => simp [well_formed_flags] at hwf
    | LITERAL _ => simp [well_formed_flags] at hwf
    | LITERAL_SIZE _ => simp [well_formed_flags] at hwf
    | LIST _ => simp [well_formed_flags] at hwf

theorem set_flags_log (s : State) (l : List imap_arg)
    (hloop : (announce_loop l
      { s with view := { s.view with flags_counter := s.view.flags_counter + 1 } }).2 = true) :
    (mailbox_state_set_flags s (.LIST l)).state.log =
      (announce_loop l
        { s with view := { s.view with flags_counter := s.view.flags_counter + 1 } }).1.log ++
      dropped_reports
        (announce_loop l
          { s with view := { s.view with flags_counter := s.view.flags_counter + 1 } }).1.view.flags_counter
        (announce_loop l
          { s with view := { s.view with flags_counter := s.view.flags_counter + 1 } }).1.view.keywords := by
  unfold mailbox_state_set_flags
  simp only
  cases h : announce_loop l
      { s with view := { s.view with flags_counter := s.view.flags_counter + 1 } } with
  | mk s1 b =>
    rw [h] at hloop
    simp only at hloop
    subst hloop
    simp only
    split
    · rfl
    · split <;> rfl

/-- C9: dropped-keyword detection in `mailbox_state_set_flags`.  For every view
whose vocabulary holds each name once and in which the epoch of every keyword
is at most the view's, and every well-formed FLAGS announcement (atoms whose
sigil atoms are known system flags), the reports added to the log are exactly
the "keyword dropped" reports of the keywords that existed before the call,
are not named in the list and have a refcount above 0, one each, in order of
index; so their number is the number of such keywords, and a keyword that is
named in the list, has refcount 0 or was added by this call is not reported. -/
theorem set_flags_dropped_reports (s : State) (l : List imap_arg)
    (hepoch : ∀ kw ∈ s.view.keywords, kw.flags_counter ≤ s.view.flags_counter)
    (hnd : (keyword_names s.view.keywords).Nodup)
    (hwf : well_formed_flags l = true) :
    (mailbox_state_set_flags s (.LIST l)).state.log =
        s.log ++ (s.view.keywords.filter fun kw =>
          decide (kw.name.name ∉ keyword_atoms l) && decide (0 < kw.refcount)).map
          dropped_report ∧
      (mailbox_state_set_flags s (.LIST l)).state.log.countP is_dropped_report =
        s.log.countP is_dropped_report +
          s.view.keywords.countP fun kw =>
            decide (kw.name.name ∉ keyword_atoms l) && decide (0 < kw.refcount) := by
  obtain ⟨h1, h2, h3, h4⟩ := announce_loop_spec l hwf
    { s with view := { s.view with flags_counter := s.view.flags_counter + 1 } } hnd
  have hlog := set_flags_log s l h1
  rw [h2, h3, h4] at hlog
  have hfilter : (s.view.keywords.filter fun kw =>
        decide (kw.flags_counter ≠ s.view.flags_counter + 1) &&
          decide (kw.name.name ∉ keyword_atoms l) && decide (0 < kw.refcount)) =
      s.view.keywords.filter fun kw =>
        decide (kw.name.name ∉ keyword_atoms l) && decide (0 < kw.refcount) := by
    apply List.filter_congr
    intro kw hkw
    have := hepoch kw hkw
    have hne : kw.flags_counter ≠ s.view.flags_counter + 1 := by omega
    simp [hne]
  simp only at hlog
  rw [hfilter] at hlog
  refine ⟨hlog, ?_⟩
  rw [hlog, List.countP_append, List.countP_map, List.countP_eq_length_filter (l := s.view.keywords)]
  congr 1
  rw [List.countP_eq_length]
  intro kw _
  rfl

/-- C9, witness: after `FLAGS (\Answered foo)` and a FETCH with `FLAGS (foo)`
the keyword `foo` has refcount 1; the announcement `FLAGS (\Answered)` drops it
and adds exactly one report. -/
theorem set_flags_dropped_reports_witness :
    (mailbox_state_set_flags example_foo_fetched (.LIST [.ATOM "\\Answered"])).state.log =
      [⟨Channel.i_error, Msg.keyword_dropped "foo" 1⟩] :=
  (set_flags_dropped_reports example_foo_fetched [.ATOM "\\Answered"]
    (by decide) (by decide) (by decide)).1.trans (by decide)

theorem hash_lookup_some (id : String) (msgs : List message_global) (k : Nat)
    (h : hash_lookup id msgs = some k) :
    ∃ g, msgs.get? k = some g ∧ g.message_id = id := by
  induction msgs generalizing k with
  | nil => simp [hash_lookup] at h
  | cons g gs ih =>
    simp only [hash_lookup] at h
    split at h
    · rename_i he
      cases h
      exact ⟨g, rfl, he⟩
    · cases hf : hash_lookup id gs with
      | none => rw [hf] at h; cases h
      | some i =>
        rw [hf] at h
        simp only [Option.map_some', Option.some.injEq] at h
        subst h
        obtain ⟨g', hg', hid⟩ := ih i hf
        exact ⟨g', by simpa using hg', hid⟩

theorem hash_lookup_none (id : String) (msgs : List message_global)
    (h : hash_lookup id msgs = none) : id ∉ msgs.map fun g => g.message_id := by
  induction msgs with
  | nil => simp
  | cons g gs ih =>
    simp only [hash_lookup] at h
    split at h
    · cases h
    · rename_i hne
      simp only [Option.map_eq_none'] at h
      simp only [List.map_cons, List.mem_cons, not_or]
      exact ⟨fun e => hne e.symm, ih h⟩

/-- C13: Message-Id binding and registry identity in `client_fetch_envelope`.
For an ENVELOPE whose 10th field is the string `M`, called for valid canonical
metadata and a registry holding each key once: if the metadata has no linked
Message, afterwards it is linked to a record of key `M`, the registry holds
exactly one record with key `M` (the existing one, reused, when there was one,
else a new one appended), every earlier registry entry is unchanged and
nothing is reported; if it is linked to a Message of id `M` nothing changes;
if it is linked to a Message of another id, exactly one protocol error is
reported and the link and the registry are unchanged. -/
theorem client_fetch_envelope_binding (s : State) (j uid : Nat) (l : List imap_arg)
    (M : String) (ms : message_metadata_static)
    (hl : l.get? 9 = some (.STRING M))
    (hms : s.storage.static_metadata.get? j = some ms)
    (hnd : (registry_keys s.source).Nodup) :
    (ms.msg = none →
      ∃ k s', client_fetch_envelope s j l uid = .ok () s' ∧
        s'.storage.static_metadata.get? j = some { ms with msg := some k } ∧
        (s'.source.messages.get? k).map (fun g => g.message_id) = some M ∧
        (registry_keys s'.source).count M = 1 ∧
        (∃ extra, s'.source.messages = s.source.messages ++ extra) ∧
        (M ∈ registry_keys s.source → s'.source = s.source) ∧
        s'.log = s.log ∧ s'.view = s.view) ∧
      (∀ k g, ms.msg = some k → s.source.messages.get? k = some g → g.message_id = M →
        client_fetch_envelope s j l uid = .ok () s) ∧
      (∀ k g, ms.msg = some k → s.source.messages.get? k = some g → g.message_id ≠ M →
        client_fetch_envelope s j l uid =
          .ok () { s with log := s.log ++ [⟨Channel.client_input_error,
            Msg.message_id_changed uid g.message_id M⟩] }) := by
  have hlen : ¬ l.length < 9 := by
    intro h
    have : l.get? 9 = none := List.get?_eq_none.2 (by omega)
    rw [this] at hl; cases hl
  have hjlt : j < s.storage.static_metadata.length := by
    rcases Nat.lt_or_ge j s.storage.static_metadata.length with h | h
    · exact h
    · rw [List.get?_eq_none.2 h] at hms; cases hms
  refine ⟨?_, ?_, ?_⟩
  · intro hnone
    cases hf : hash_lookup M s.source.messages with
    | some k =>
      obtain ⟨g, hg, hid⟩ := hash_lookup_some M _ k hf
      refine ⟨k, s.set_ms j { ms with msg := some k }, ?_, ?_, ?_, ?_, ⟨[], by simp [State.set_ms]⟩,
        fun _ => rfl, rfl, rfl⟩
      · simp only [client_fetch_envelope, hlen, if_false, hl, hms, hnone, hf]
      · simp [State.set_ms, List.get?_eq_getElem?, List.getElem?_set, hjlt]
      · simp only [State.set_ms, hg, Option.map_some', hid]
      · apply List.count_eq_one_of_mem hnd
        simp only [registry_keys, List.mem_map]
        exact ⟨g, List.get?_mem hg, hid⟩
    | none =>
      have hnot := hash_lookup_none M _ hf
      refine ⟨s.source.messages.length,
        State.set_ms
          { s with source :=
              { s.source with messages := s.source.messages ++ [message_global.new M] } }
          j { ms with msg := some s.source.messages.length }, ?_, ?_, ?_, ?_,
        ⟨[message_global.new M], by simp [State.set_ms]⟩, ?_, rfl, rfl⟩
      · simp only [client_fetch_envelope, hlen, if_false, hl, hms, hnone, hf]
      · simp [State.set_ms, List.get?_eq_getElem?, List.getElem?_set, hjlt]
      · simp [State.set_ms, List.get?_eq_getElem?, message_global.new]
      · simp only [State.set_ms, registry_keys, List.map_append, List.map_cons, List.map_nil,
          List.count_append, message_global.new]
        have h0 : List.count M (List.map (fun g => g.message_id) s.source.messages) = 0 :=
          List.count_eq_zero_of_not_mem hnot
        simp [h0]
      · intro hmem
        exact absurd hmem hnot
  · intro k g hk hg hid
    simp only [client_fetch_envelope, hlen, if_false, hl, hms, hk, hg, hid, strcmp_eq, beq_self_eq_true, if_true]
  · intro k g hk hg hid
    have hb : (g.message_id == M) = false := by simpa using hid
    simp only [client_fetch_envelope, hlen, if_false, hl, hms, hk, hg, hb, strcmp_eq, client_input_error, Bool.false_eq_true]

/-- C13, witness: the canonical metadata of UID 5 is linked to the Message
`<1@example>` and an ENVELOPE with Message-Id `<2@example>` arrives: one
protocol error, and nothing else changes. -/
theorem client_fetch_envelope_binding_witness :
    client_fetch_envelope (example_state 0 0 0 [0, 0, 0, 0] 0) 0
        (example_envelope "<2@example>") 5 =
      .ok ()
        { example_state 0 0 0 [0, 0, 0, 0] 0 with
          log := [⟨Channel.client_input_error,
            Msg.message_id_changed 5 "<1@example>" "<2@example>"⟩] } :=
  (client_fetch_envelope_binding (example_state 0 0 0 [0, 0, 0, 0] 0) 0 5
    (example_envelope "<2@example>") "<2@example>" ⟨5, 0, false, 0, some 0⟩
    rfl (by decide) (by decide)).2.2 0 example_message (by decide) (by decide)
    (by decide)

theorem keyword_names_map_permanent (K : List mailbox_keyword) (p : mailbox_keyword → Bool) :
    keyword_names (K.map fun kw => if p kw then { kw with permanent := true } else kw) =
      keyword_names K := by
  simp only [keyword_names, List.map_map]
  apply List.map_congr_left
  intro kw _
  simp only [Function.comp]
  split <;> rfl

theorem modify_eq_map_of_find (a : String) (K : List mailbox_keyword) (idx : Nat)
    (f : mailbox_keyword → mailbox_keyword)
    (hnd : (keyword_names K).Nodup)
    (hf : mailbox_view_keyword_find a K = some idx) :
    K.modify f idx = K.map fun kw => if kw.name.name = a then f kw else kw := by
  obtain ⟨pre, kw, post, hK, hlen, hname, hpre⟩ := keyword_find_some a K idx hf
  subst hK
  have hnd' : (keyword_names pre ++ a :: keyword_names post).Nodup := by
    simpa [keyword_names, hname] using hnd
  have hpost : a ∉ keyword_names post :=
    (List.nodup_cons.1 (List.nodup_append.1 hnd').2.1).1
  rw [← hlen, modify_append_cons, List.map_append, List.map_cons]
  have h1 : ∀ L : List mailbox_keyword, a ∉ keyword_names L →
      (L.map fun kw => if kw.name.name = a then f kw else kw) = L := by
    intro L hL
    conv_rhs => rw [← List.map_id L]
    apply List.map_congr_left
    intro x hx
    have : x.name.name ≠ a := by
      intro e; apply hL
      simp only [keyword_names, List.mem_map]
      exact ⟨x, hx, e⟩
    simp [this]
  rw [h1 pre hpre, h1 post hpost, if_pos hname]

theorem map_eq_self_of_not_mem (a : String) (K : List mailbox_keyword)
    (f : mailbox_keyword → mailbox_keyword) (h : a ∉ keyword_names K) :
    (K.map fun kw => if kw.name.name = a then f kw else kw) = K := by
  conv_rhs => rw [← List.map_id K]
  apply List.map_congr_left
  intro x hx
  have : x.name.name ≠ a := by
    intro e; apply h
    simp only [keyword_names, List.mem_map]
    exact ⟨x, hx, e⟩
  simp [this]

theorem permanent_loop_spec (l : List imap_arg) :
    well_formed_permanent l = true →
    ∀ (s : State) (errors : Bool), (keyword_names s.view.keywords).Nodup →
      (permanent_loop l s errors).2.2 = true ∧
      (permanent_loop l s errors).2.1 =
        (errors || !(unknown_atoms (keyword_names s.view.keywords) l).isEmpty) ∧
      (permanent_loop l s errors).1.log =
        s.log ++ (unknown_atoms (keyword_names s.view.keywords) l).map not_introduced_report ∧
      (permanent_loop l s errors).1.view.keywords =
        (s.view.keywords.map fun kw =>
          if kw.name.name ∈ keyword_atoms l then { kw with permanent := true } else kw) ∧
      (permanent_loop l s errors).1.view.keywords_can_create_more =
        (s.view.keywords_can_create_more || names_wildcard l) ∧
      (permanent_loop l s errors).1.error_quit = s.error_quit := by
  induction l with
  | nil =>
    intro _ s errors _
    simp [permanent_loop, unknown_atoms, keyword_atoms, names_wildcard]
  | cons x rest ih =>
    intro hwf s errors hnd
    cases x with
    | ATOM a =>
      simp only [well_formed_permanent, Bool.and_eq_true] at hwf
      obtain ⟨hsig, hrest⟩ := hwf
      by_cases hs : a.data.head? = some '\\'
      · simp only [hs, if_true, Bool.or_eq_true] at hsig
        by_cases hw : strcmp_eq a "\\*" = true
        · simp only [permanent_loop, hs, if_true, hw, keyword_atoms, unknown_atoms, names_wildcard]
          obtain ⟨h1, h2, h3, h4, h5, h6⟩ := ih hrest
            { s with view := { s.view with keywords_can_create_more := true } } errors hnd
          refine ⟨h1, h2, h3, h4, ?_, h6⟩
          rw [h5]; simp
        · have hp : ¬ mail_flag_parse (str_skip a 1) = 0 := by
            rcases hsig with h | h
            · exact absurd h hw
            · simpa using h
          have hw' : strcmp_eq a "\\*" = false := by simpa using hw
          simp only [permanent_loop, hs, if_true, hw, hp, if_false, keyword_atoms, unknown_atoms,
            names_wildcard, hw', Bool.false_or, Bool.false_eq_true]
          exact ih hrest s errors hnd
      · have hw' : strcmp_eq a "\\*" = false := by
          simp only [strcmp_eq, beq_eq_false_iff_ne, ne_eq]
          intro e; subst e; exact hs (by decide)
        simp only [permanent_loop, hs, if_false, keyword_atoms, names_wildcard, hw',
          Bool.false_or]
        cases hf : mailbox_view_keyword_find a s.view.keywords with
        | none =>
          have hnot := keyword_find_none a _ hf
          obtain ⟨h1, h2, h3, h4, h5, h6⟩ := ih hrest
            { s with log := s.log ++ [⟨Channel.i_error, Msg.permanentflag_not_introduced a⟩] }
            true hnd
          simp only at h1 h2 h3 h4 h5 h6 ⊢
          refine ⟨h1, ?_, ?_, ?_, h5, h6⟩
          · rw [h2]; simp [unknown_atoms, keyword_atoms, hs, List.filter_cons, hnot]
          · rw [h3]; simp [unknown_atoms, keyword_atoms, hs, List.filter_cons, hnot, not_introduced_report]
          · rw [h4]
            apply List.map_congr_left
            intro kw hkw
            have hne : kw.name.name ≠ a := by
              intro e; apply hnot
              simp only [keyword_names, List.mem_map]
              exact ⟨kw, hkw, e⟩
            simp [hne]
        | some idx =>
          have hmem : a ∈ keyword_names s.view.keywords := by
            obtain ⟨pre, kw, post, hK, _, hname, _⟩ := keyword_find_some a _ idx hf
            rw [hK]; simp [keyword_names, hname]
          have hmod := modify_eq_map_of_find a s.view.keywords idx
            (fun kw => { kw with permanent := true }) hnd hf
          have hnames : keyword_names (List.modify (fun kw => { kw with permanent := true })
              idx s.view.keywords) = keyword_names s.view.keywords := by
            rw [hmod]
            have := keyword_names_map_permanent s.view.keywords
              (fun kw => decide (kw.name.name = a))
            simpa using this
          obtain ⟨h1, h2, h3, h4, h5, h6⟩ := ih hrest
            { s with
              view := { s.view with
                keywords :=
                  (List.modify (fun kw => { kw with permanent := true }) idx s.view.keywords) } }
            errors (by simpa [hnames] using hnd)
          simp only at h1 h2 h3 h4 h5 h6 ⊢
          rw [hnames] at h2 h3
          refine ⟨h1, ?_, ?_, ?_, h5, h6⟩
          · rw [h2]; simp [unknown_atoms, keyword_atoms, hs, List.filter_cons, hmem]
          · rw [h3]; simp [unknown_atoms, keyword_atoms, hs, List.filter_cons, hmem]
          · rw [h4, hmod, List.map_map]
            apply List.map_congr_left
            intro kw _
            simp only [Function.comp]
            by_cases e : kw.name.name = a
            · simp [e]
            · simp [e]
    | NIL => simp [well_formed_permanent] at hwf
    | STRING _ => simp [well_formed_permanent] at hwf
    | LITERAL _ => simp [well_formed_permanent] at hwf
    | LITERAL_SIZE _ => simp [well_formed_permanent] at hwf
    | LIST _ => simp [well_formed_permanent] at hwf

theorem warn_nonpermanent_eq (K : List mailbox_keyword) :
    warn_nonpermanent K =
      (K.map (fun kw =>
          if ¬ kw.permanent ∧ ¬ kw.seen_nonpermanent then { kw with seen_nonpermanent := true }
          else kw),
        (K.filter fun kw => !kw.permanent && !kw.seen_nonpermanent).map not_permanent_warning) := by
  induction K with
  | nil => rfl
  | cons kw K ih =>
    simp only [warn_nonpermanent, ih, List.map_cons, List.filter_cons]
    by_cases h1 : kw.permanent = true <;> by_cases h2 : kw.seen_nonpermanent = true <;>
      simp [h1, h2, not_permanent_warning]

theorem permanent_flags_state (s : State) (l : List imap_arg)
    (hwf : well_formed_permanent l = true)
    (hnd : (keyword_names s.view.keywords).Nodup) :
    (mailbox_state_set_permanent_flags s (.LIST l)).state.view.keywords =
        (s.view.keywords.map fun kw =>
          { kw with
            permanent := decide (kw.name.name ∈ keyword_atoms l)
            seen_nonpermanent :=
              (kw.seen_nonpermanent || !decide (kw.name.name ∈ keyword_atoms l)) }) ∧
      (mailbox_state_set_permanent_flags s (.LIST l)).state.view.keywords_can_create_more =
        names_wildcard l ∧
      (mailbox_state_set_permanent_flags s (.LIST l)).state.log =
        s.log ++ (unknown_atoms (keyword_names s.view.keywords) l).map not_introduced_report ++
          (s.view.keywords.filter fun kw =>
            !decide (kw.name.name ∈ keyword_atoms l) && !kw.seen_nonpermanent).map
            not_permanent_warning := by
  have hnames : keyword_names (s.view.keywords.map fun kw => { kw with permanent := false }) =
      keyword_names s.view.keywords := by
    simp [keyword_names, List.map_map, Function.comp]
  obtain ⟨h1, h2, h3, h4, h5, h6⟩ := permanent_loop_spec l hwf
    { s with
      view := { s.view with
        keywords := (s.view.keywords.map fun kw => { kw with permanent := false })
        keywords_can_create_more := false } }
    false (by simpa [hnames] using hnd)
  simp only at h1 h2 h3 h4 h5 h6
  rw [hnames] at h2 h3
  unfold mailbox_state_set_permanent_flags
  simp only
  cases hloop : permanent_loop l
    { s with
      view := { s.view with
        keywords := (s.view.keywords.map fun kw => { kw with permanent := false })
        keywords_can_create_more := false } }
    false with
  | mk s1 r =>
    cases r with
    | mk errors b =>
      rw [hloop] at h1 h2 h3 h4 h5 h6
      simp only at h1 h2 h3 h4 h5 h6
      subst h1
      simp only
      have hst : ∀ o : Outcome Int,
          (o = .abort Abort.exit_2
              { s1 with view := { s1.view with keywords := (warn_nonpermanent s1.view.keywords).1 },
                        log := s1.log ++ (warn_nonpermanent s1.view.keywords).2 } ∨
            o = .ok 0
              { s1 with view := { s1.view with keywords := (warn_nonpermanent s1.view.keywords).1 },
                        log := s1.log ++ (warn_nonpermanent s1.view.keywords).2 }) →
          o.state =
            { s1 with view := { s1.view with keywords := (warn_nonpermanent s1.view.keywords).1 },
                      log := s1.log ++ (warn_nonpermanent s1.view.keywords).2 } := by
        intro o ho
        rcases ho with h | h <;> rw [h] <;> rfl
      rw [hst _ (by split <;> simp)]
      simp only [warn_nonpermanent_eq, h4, h5, h3, List.map_map, List.filter_map, Bool.false_or]
      refine ⟨?_, trivial, ?_⟩
      · apply List.map_congr_left
        intro kw _
        simp only [Function.comp]
        by_cases hn : kw.name.name ∈ keyword_atoms l <;>
          by_cases hsn : kw.seen_nonpermanent = true <;> simp [hn, hsn]
      · congr 1
        have hf : (List.filter
            ((fun kw : mailbox_keyword => !kw.permanent && !kw.seen_nonpermanent) ∘
              (fun kw => if kw.name.name ∈ keyword_atoms l then { kw with permanent := true } else kw) ∘
              fun kw => { kw with permanent := false }) s.view.keywords) =
            List.filter (fun kw => !decide (kw.name.name ∈ keyword_atoms l) && !kw.seen_nonpermanent)
              s.view.keywords := by
          apply List.filter_congr
          intro kw _
          simp only [Function.comp]
          by_cases hn : kw.name.name ∈ keyword_atoms l <;> simp [hn]
        rw [hf]
        apply List.map_congr_left
        intro kw _
        simp only [Function.comp, not_permanent_warning]
        split <;> rfl

theorem names_wildcard_iff (l : List imap_arg) :
    names_wildcard l = true ↔ imap_arg.ATOM "\\*" ∈ l := by
  induction l with
  | nil => simp [names_wildcard]
  | cons x rest ih =>
    rw [List.mem_cons]
    cases x with
    | ATOM a =>
      simp only [names_wildcard, Bool.or_eq_true, ih, strcmp_eq, beq_iff_eq]
      constructor
      · rintro (h | h)
        · exact Or.inl (by rw [h])
        · exact Or.inr h
      · rintro (h | h)
        · exact Or.inl (by cases h; rfl)
        · exact Or.inr h
    | NIL => simp only [names_wildcard, ih]; exact ⟨Or.inr, fun h => h.resolve_left (by intro e; cases e)⟩
    | STRING _ => simp only [names_wildcard, ih]; exact ⟨Or.inr, fun h => h.resolve_left (by intro e; cases e)⟩
    | LITERAL _ => simp only [names_wildcard, ih]; exact ⟨Or.inr, fun h => h.resolve_left (by intro e; cases e)⟩
    | LITERAL_SIZE _ => simp only [names_wildcard, ih]; exact ⟨Or.inr, fun h => h.resolve_left (by intro e; cases e)⟩
    | LIST _ => simp only [names_wildcard, ih]; exact ⟨Or.inr, fun h => h.resolve_left (by intro e; cases e)⟩

/-- C15: postcondition of a PERMANENTFLAGS announcement.  For every view whose
vocabulary holds each name once and every list of atoms whose sigil atoms are
the wildcard `\*` or known system flags, in the state
`mailbox_state_set_permanent_flags` ends in: the names of the vocabulary are
unchanged, a keyword is marked permanent if and only if its name is a keyword
atom of the list (whatever its mark was before), and
`keywords_can_create_more` is set if and only if the wildcard atom is in the
list. -/
theorem permanent_flags_postcondition (s : State) (l : List imap_arg)
    (hwf : well_formed_permanent l = true)
    (hnd : (keyword_names s.view.keywords).Nodup) :
    keyword_names (mailbox_state_set_permanent_flags s (.LIST l)).state.view.keywords =
        keyword_names s.view.keywords ∧
      (∀ kw ∈ (mailbox_state_set_permanent_flags s (.LIST l)).state.view.keywords,
        kw.permanent = true ↔ kw.name.name ∈ keyword_atoms l) ∧
      ((mailbox_state_set_permanent_flags s (.LIST l)).state.view.keywords_can_create_more = true ↔
        imap_arg.ATOM "\\*" ∈ l) := by
  obtain ⟨h1, h2, _⟩ := permanent_flags_state s l hwf hnd
  refine ⟨?_, ?_, ?_⟩
  · rw [h1]; simp [keyword_names, List.map_map, Function.comp]
  · intro kw hkw
    rw [h1] at hkw
    obtain ⟨kw0, _, rfl⟩ := List.mem_map.1 hkw
    simp
  · rw [h2]; exact names_wildcard_iff l

/-- C15, witness: the vocabulary holds `foo`; after `PERMANENTFLAGS (\Seen foo
\*)` the keyword `foo` is permanent and new keywords can be created. -/
theorem permanent_flags_postcondition_witness :
    ((mailbox_state_set_permanent_flags (example_state 0 0 0 [0, 0, 0, 0] 0)
        (.LIST [.ATOM "\\Seen", .ATOM "foo", .ATOM "\\*"])).state.view.keywords.map
        fun kw => (kw.name.name, kw.permanent)) = [("foo", true)] ∧
      keyword_names (mailbox_state_set_permanent_flags (example_state 0 0 0 [0, 0, 0, 0] 0)
        (.LIST [.ATOM "\\Seen", .ATOM "foo", .ATOM "\\*"])).state.view.keywords =
        keyword_names (example_state 0 0 0 [0, 0, 0, 0] 0).view.keywords ∧
      ((mailbox_state_set_permanent_flags (example_state 0 0 0 [0, 0, 0, 0] 0)
          (.LIST [.ATOM "\\Seen", .ATOM "foo", .ATOM "\\*"])).state.view.keywords_can_create_more =
          true ↔
        imap_arg.ATOM "\\*" ∈ [imap_arg.ATOM "\\Seen", .ATOM "foo", .ATOM "\\*"]) :=
  ⟨by decide,
    (permanent_flags_postcondition (example_state 0 0 0 [0, 0, 0, 0] 0)
      [.ATOM "\\Seen", .ATOM "foo", .ATOM "\\*"] (by decide) (by decide)).1,
    (permanent_flags_postcondition (example_state 0 0 0 [0, 0, 0, 0] 0)
      [.ATOM "\\Seen", .ATOM "foo", .ATOM "\\*"] (by decide) (by decide)).2.2⟩

/-- C16 (as amended): PERMANENTFLAGS naming an unannounced keyword.  For every
view whose vocabulary holds each name once, every well-formed PERMANENTFLAGS
list and every keyword atom `a` absent from the vocabulary, the call adds one
"not introduced with FLAGS" report for `a` per occurrence of `a` in the list
(exactly one when it is named once), adds no entry to the vocabulary, and
marks no keyword of that name permanent; the keywords of the vocabulary that
the list names are marked permanent all the same. -/
theorem permanent_flags_unannounced (s : State) (l : List imap_arg) (a : String)
    (hwf : well_formed_permanent l = true)
    (hnd : (keyword_names s.view.keywords).Nodup)
    (ha : a ∉ keyword_names s.view.keywords) :
    (mailbox_state_set_permanent_flags s (.LIST l)).state.log.count (not_introduced_report a) =
        s.log.count (not_introduced_report a) + (keyword_atoms l).count a ∧
      keyword_names (mailbox_state_set_permanent_flags s (.LIST l)).state.view.keywords =
        keyword_names s.view.keywords ∧
      (∀ kw ∈ (mailbox_state_set_permanent_flags s (.LIST l)).state.view.keywords,
        kw.name.name ≠ a ∧ (kw.permanent = true ↔ kw.name.name ∈ keyword_atoms l)) := by
  obtain ⟨h1, _, h3⟩ := permanent_flags_state s l hwf hnd
  have p1 : keyword_names (mailbox_state_set_permanent_flags s (.LIST l)).state.view.keywords =
      keyword_names s.view.keywords := by
    rw [h1]; simp [keyword_names, List.map_map, Function.comp]
  have p2 : ∀ kw ∈ (mailbox_state_set_permanent_flags s (.LIST l)).state.view.keywords,
      kw.permanent = true ↔ kw.name.name ∈ keyword_atoms l := by
    intro kw hkw
    rw [h1] at hkw
    obtain ⟨kw0, _, rfl⟩ := List.mem_map.1 hkw
    simp
  refine ⟨?_, p1, ?_⟩
  · rw [h3, List.count_append, List.count_append]
    have hinj : Function.Injective not_introduced_report := by
      intro x y h
      simpa [not_introduced_report] using h
    have hw : List.count (not_introduced_report a)
        (List.map not_permanent_warning
          (List.filter (fun kw => !decide (kw.name.name ∈ keyword_atoms l) && !kw.seen_nonpermanent)
            s.view.keywords)) = 0 := by
      apply List.count_eq_zero_of_not_mem
      intro hmem
      obtain ⟨kw, _, hkw⟩ := List.mem_map.1 hmem
      simp [not_permanent_warning, not_introduced_report] at hkw
    rw [hw, List.count_map_of_injective _ _ hinj, unknown_atoms, List.count_filter (by simpa using ha)]
    omega
  · intro kw hkw
    refine ⟨?_, p2 kw hkw⟩
    intro e
    apply ha
    rw [← p1]
    simp only [keyword_names, List.mem_map]
    exact ⟨kw, hkw, e⟩

/-- C16, counterexample: the vocabulary holds `foo`, and `PERMANENTFLAGS (foo
bar)` names the unannounced keyword `bar`.  One report is made for `bar`, and
`foo` is marked permanent, where the claim demands that no keyword of the view
is permanent after the call. -/
theorem unannounced_keyword_leaves_others_permanent :
    "bar" ∉ keyword_names (example_state 0 0 0 [0, 0, 0, 0] 0).view.keywords ∧
      (mailbox_state_set_permanent_flags (example_state 0 0 0 [0, 0, 0, 0] 0)
        (.LIST [.ATOM "foo", .ATOM "bar"])).state.log =
        [⟨Channel.i_error, Msg.permanentflag_not_introduced "bar"⟩] ∧
      ((mailbox_state_set_permanent_flags (example_state 0 0 0 [0, 0, 0, 0] 0)
        (.LIST [.ATOM "foo", .ATOM "bar"])).state.view.keywords.map
        fun kw => (kw.name.name, kw.permanent)) = [("foo", true)] := by
  decide

/-- C16, witness: `PERMANENTFLAGS (foo bar)` on the vocabulary `foo` adds one
report for `bar`. -/
theorem permanent_flags_unannounced_witness :
    (mailbox_state_set_permanent_flags (example_state 0 0 0 [0, 0, 0, 0] 0)
        (.LIST [.ATOM "foo", .ATOM "bar"])).state.log.count (not_introduced_report "bar") =
      (example_state 0 0 0 [0, 0, 0, 0] 0).log.count (not_introduced_report "bar") +
        (keyword_atoms [.ATOM "foo", .ATOM "bar"]).count "bar" :=
  (permanent_flags_unannounced (example_state 0 0 0 [0, 0, 0, 0] 0)
    [.ATOM "foo", .ATOM "bar"] "bar" (by decide) (by decide) (by decide)).1

theorem modify_map_invariant {α β : Type} (f : α → α) (g : α → β) (hg : ∀ x, g (f x) = g x)
    (K : List α) : ∀ idx, (K.modify f idx).map g = K.map g := by
  induction K with
  | nil => intro idx; simp
  | cons x K ih =>
    intro idx
    cases idx with
    | zero => simp [hg]
    | succ i => simp [List.modify_succ_cons, ih]

theorem announce_loop_completes (l : List imap_arg) :
    ∀ s : State, (announce_loop l s).2 = well_formed_flags l := by
  induction l with
  | nil => intro s; rfl
  | cons x rest ih =>
    intro s
    cases x with
    | ATOM a =>
      by_cases hs : a.data.head? = some '\\'
      · by_cases hp : mail_flag_parse (str_skip a 1) = 0
        · simp [announce_loop, well_formed_flags, hs, hp]
        · have hp' : (mail_flag_parse (str_skip a 1) != 0) = true := by simpa using hp
          simp only [announce_loop, well_formed_flags, hs, if_true, hp, if_false, hp',
            Bool.true_and]
          exact ih _
      · simp only [announce_loop, well_formed_flags, hs, if_false, Bool.true_and]
        cases mailbox_view_keyword_find a s.view.keywords with
        | none => exact ih _
        | some idx => exact ih _
    | NIL => rfl
    | STRING _ => rfl
    | LITERAL _ => rfl
    | LITERAL_SIZE _ => rfl
    | LIST _ => rfl

theorem announce_loop_vocabulary (l : List imap_arg) :
    well_formed_flags l = true →
    ∀ s : State, (keyword_names s.view.keywords).Nodup →
      (announce_loop l s).1.view.flags_counter = s.view.flags_counter ∧
      (announce_loop l s).1.error_quit = s.error_quit ∧
      (announce_loop l s).1.view.keyword_bitmask_alloc_size = s.view.keyword_bitmask_alloc_size ∧
      (keyword_names (announce_loop l s).1.view.keywords).Nodup ∧
      (∃ added,
        (announce_loop l s).1.view.keywords =
          (s.view.keywords.map fun kw =>
            if kw.name.name ∈ keyword_atoms l then
              { kw with flags_counter := s.view.flags_counter } else kw) ++ added ∧
        ∀ kw ∈ added, kw.flags_counter = s.view.flags_counter ∧
          kw.name.name ∈ keyword_atoms l ∧ kw.name.name ∉ keyword_names s.view.keywords) ∧
      (∀ a ∈ keyword_atoms l, a ∈ keyword_names (announce_loop l s).1.view.keywords) := by
  induction l with
  | nil =>
    intro _ s hnd
    refine ⟨rfl, rfl, rfl, hnd, ⟨[], ?_, by simp⟩, by simp [keyword_atoms]⟩
    simp [announce_loop, keyword_atoms]
  | cons x rest ih =>
    intro hwf s hnd
    cases x with
    | ATOM a =>
      simp only [well_formed_flags, Bool.and_eq_true] at hwf
      obtain ⟨hsig, hrest⟩ := hwf
      by_cases hs : a.data.head? = some '\\'
      · have hp : ¬ mail_flag_parse (str_skip a 1) = 0 := by simpa [hs] using hsig
        simp only [announce_loop, hs, if_true, hp, if_false, keyword_atoms]
        exact ih hrest s hnd
      · simp only [announce_loop, hs, if_false, keyword_atoms]
        cases hf : mailbox_view_keyword_find a s.view.keywords with
        | none =>
          have hnot := keyword_find_none a _ hf
          have hnames1 : keyword_names (mailbox_view_keyword_add s a).view.keywords =
              keyword_names s.view.keywords ++ [a] := by
            simp [mailbox_view_keyword_add, keyword_names, keyword_name_get_name]
          have hnd1 : (keyword_names (mailbox_view_keyword_add s a).view.keywords).Nodup := by
            rw [hnames1, List.nodup_append]
            refine ⟨hnd, by simp, ?_⟩
            intro x hx hx'
            simp only [List.mem_singleton] at hx'
            subst hx'
            exact hnot hx
          obtain ⟨h1, h2, h3, h4, ⟨added, h5, h6⟩, h7⟩ :=
            ih hrest (mailbox_view_keyword_add s a) hnd1
          have hc : (mailbox_view_keyword_add s a).view.flags_counter = s.view.flags_counter := rfl
          refine ⟨h1.trans hc, h2, h3, h4, ?_, ?_⟩
          · refine ⟨⟨mailbox_keyword_name_get s.storage.keyword_names a |>.1, 0,
              s.view.flags_counter, false, false⟩ :: added, ?_, ?_⟩
            · rw [h5]
              simp only [mailbox_view_keyword_add, List.map_append, List.map_cons, List.map_nil,
                List.append_assoc, List.singleton_append]
              congr 1
              · apply List.map_congr_left
                intro kw hkw
                have hne : kw.name.name ≠ a := by
                  intro e; apply hnot
                  simp only [keyword_names, List.mem_map]
                  exact ⟨kw, hkw, e⟩
                simp [hne]
              · congr 1
                split <;> rfl
            · intro kw hkw
              rcases List.mem_cons.1 hkw with e | hmem
              · subst e
                simp [keyword_name_get_name, hnot]
              · obtain ⟨k1, k2, k3⟩ := h6 kw hmem
                refine ⟨k1.trans hc, List.mem_cons_of_mem _ k2, ?_⟩
                intro hin
                apply k3
                rw [hnames1]
                exact List.mem_append_left _ hin
          · intro b hb
            rcases List.mem_cons.1 hb with e | hmem
            · subst e
              obtain ⟨added', e5, _⟩ : ∃ added', (announce_loop rest (mailbox_view_keyword_add s b)).1.view.keywords =
                  (List.map (fun kw => if kw.name.name ∈ keyword_atoms rest then
                    { kw with flags_counter := (mailbox_view_keyword_add s b).view.flags_counter }
                    else kw) (mailbox_view_keyword_add s b).view.keywords) ++ added' ∧ True :=
                ⟨added, h5, trivial⟩
              rw [e5]
              simp only [keyword_names, List.map_append, List.mem_append, List.map_map]
              left
              have : List.map ((fun kw : mailbox_keyword => kw.name.name) ∘ fun kw =>
                  if kw.name.name ∈ keyword_atoms rest then
                    { kw with flags_counter := (mailbox_view_keyword_add s b).view.flags_counter }
                  else kw) (mailbox_view_keyword_add s b).view.keywords =
                  keyword_names (mailbox_view_keyword_add s b).view.keywords := by
                simp only [keyword_names]
                apply List.map_congr_left
                intro kw _
                simp only [Function.comp]
                split <;> rfl
              rw [this, hnames1]
              simp
            · exact h7 b hmem
        | some idx =>
          have hmem : a ∈ keyword_names s.view.keywords := by
            obtain ⟨pre, kw, post, hK, _, hname, _⟩ := keyword_find_some a _ idx hf
            rw [hK]; simp [keyword_names, hname]
          have hmod := modify_eq_map_of_find a s.view.keywords idx
            (fun kw => { kw with flags_counter := s.view.flags_counter }) hnd hf
          have hnames : keyword_names (List.modify
              (fun kw => { kw with flags_counter := s.view.flags_counter }) idx s.view.keywords) =
              keyword_names s.view.keywords := by
            simp only [keyword_names]
            exact modify_map_invariant
              (fun kw : mailbox_keyword => { kw with flags_counter := s.view.flags_counter })
              (fun kw => kw.name.name) (fun _ => rfl) _ _
          obtain ⟨h1, h2, h3, h4, ⟨added, h5, h6⟩, h7⟩ := ih hrest
            { s with
              view := { s.view with
                keywords :=
                  (List.modify (fun kw => { kw with flags_counter := s.view.flags_counter })
                    idx s.view.keywords) } }
            (by simpa [hnames] using hnd)
          simp only at h1 h2 h3 h4 h5 h6 h7 ⊢
          rw [hnames] at h6
          refine ⟨h1, h2, h3, h4, ⟨added, ?_, ?_⟩, ?_⟩
          · rw [h5, hmod, List.map_map]
            congr 1
            apply List.map_congr_left
            intro kw _
            simp only [Function.comp]
            by_cases e : kw.name.name = a
            · simp [e]
            · simp [e]
          · intro kw hkw
            obtain ⟨k1, k2, k3⟩ := h6 kw hkw
            exact ⟨k1, List.mem_cons_of_mem _ k2, k3⟩
          · intro b hb
            rcases List.mem_cons.1 hb with e | hm
            · subst e
              rw [h5]
              simp only [keyword_names, List.map_append, List.mem_append]
              left
              have : List.map (fun kw : mailbox_keyword => kw.name.name)
                  (List.map (fun kw => if kw.name.name ∈ keyword_atoms rest then
                    { kw with flags_counter := s.view.flags_counter } else kw)
                    (List.modify (fun kw => { kw with flags_counter := s.view.flags_counter })
                      idx s.view.keywords)) = keyword_names s.view.keywords := by
                rw [← hnames]
                simp only [keyword_names, List.map_map]
                apply List.map_congr_left
                intro kw _
                simp only [Function.comp]
                split <;> rfl
              rw [this]
              exact hmem
            · exact h7 b hm
    | NIL => simp [well_formed_flags] at hwf
    | STRING _ => simp [well_formed_flags] at hwf
    | LITERAL _ => simp [well_formed_flags] at hwf
    | LITERAL_SIZE _ => simp [well_formed_flags] at hwf
    | LIST _ => simp [well_formed_flags] at hwf

theorem set_flags_well_formed (s : State) (l : List imap_arg)
    (hwf : well_formed_flags l = true) :
    (mailbox_state_set_flags s (.LIST l) = .ok 0 (mailbox_state_set_flags s (.LIST l)).state ∨
        ((announce_loop l
            { s with view := { s.view with flags_counter := s.view.flags_counter + 1 } }).1.error_quit =
            true ∧
          mailbox_state_set_flags s (.LIST l) =
            .abort Abort.exit_2 (mailbox_state_set_flags s (.LIST l)).state)) ∧
      (mailbox_state_set_flags s (.LIST l)).state.view.keywords =
        (announce_loop l
          { s with view := { s.view with flags_counter := s.view.flags_counter + 1 } }).1.view.keywords ∧
      (mailbox_state_set_flags s (.LIST l)).state.view.flags_counter =
        (announce_loop l
          { s with view := { s.view with flags_counter := s.view.flags_counter + 1 } }).1.view.flags_counter := by
  have hb := announce_loop_completes l
    { s with view := { s.view with flags_counter := s.view.flags_counter + 1 } }
  rw [hwf] at hb
  unfold mailbox_state_set_flags
  simp only
  cases h : announce_loop l
      { s with view := { s.view with flags_counter := s.view.flags_counter + 1 } } with
  | mk s1 b =>
    rw [h] at hb
    simp only at hb
    subst hb
    simp only
    split
    · rename_i hq
      exact ⟨Or.inr ⟨hq.2, rfl⟩, rfl, rfl⟩
    · split
      · exact ⟨Or.inl rfl, rfl, rfl⟩
      · exact ⟨Or.inl rfl, rfl, rfl⟩

theorem set_flags_exit_or_return (s : State) (l : List imap_arg)
    (hwf : well_formed_flags l = true)
    (hnd : (keyword_names s.view.keywords).Nodup)
    (hepoch : ∀ kw ∈ s.view.keywords, kw.flags_counter ≤ s.view.flags_counter) :
    mailbox_state_set_flags s (.LIST l) =
      if s.error_quit = true ∧
          ∃ kw ∈ s.view.keywords, kw.name.name ∉ keyword_atoms l ∧ 0 < kw.refcount then
        .abort Abort.exit_2 (mailbox_state_set_flags s (.LIST l)).state
      else .ok 0 (mailbox_state_set_flags s (.LIST l)).state := by
  obtain ⟨b1, _, b3, b4⟩ := announce_loop_spec l hwf
    { s with view := { s.view with flags_counter := s.view.flags_counter + 1 } } hnd
  obtain ⟨_, v2, _⟩ := announce_loop_vocabulary l hwf
    { s with view := { s.view with flags_counter := s.view.flags_counter + 1 } } hnd
  simp only at b3 b4 v2
  have hcond : (dropped_reports
        (announce_loop l
          { s with view := { s.view with flags_counter := s.view.flags_counter + 1 } }).1.view.flags_counter
        (announce_loop l
          { s with view := { s.view with flags_counter := s.view.flags_counter + 1 } }).1.view.keywords
          ≠ [] ∧
        (announce_loop l
          { s with view := { s.view with flags_counter := s.view.flags_counter + 1 } }).1.error_quit =
          true) ↔
      (s.error_quit = true ∧
        ∃ kw ∈ s.view.keywords, kw.name.name ∉ keyword_atoms l ∧ 0 < kw.refcount) := by
    rw [b3, b4, v2]
    have hne : ((s.view.keywords.filter fun kw =>
          decide (kw.flags_counter ≠ s.view.flags_counter + 1) &&
            decide (kw.name.name ∉ keyword_atoms l) && decide (0 < kw.refcount)).map
          dropped_report ≠ []) ↔
        ∃ kw ∈ s.view.keywords, kw.name.name ∉ keyword_atoms l ∧ 0 < kw.refcount := by
      rw [Ne, List.map_eq_nil_iff, List.filter_eq_nil_iff]
      constructor
      · intro h
        by_contra hno
        apply h
        intro kw hkw hp
        simp only [Bool.and_eq_true, decide_eq_true_eq] at hp
        exact hno ⟨kw, hkw, hp.1.2, hp.2⟩
      · rintro ⟨kw, hkw, h1, h2⟩ h
        apply h kw hkw
        have hk := hepoch kw hkw
        have hne : kw.flags_counter ≠ s.view.flags_counter + 1 := by omega
        simp only [Bool.and_eq_true, decide_eq_true_eq]
        exact ⟨⟨hne, h1⟩, h2⟩
    rw [hne]
    exact and_comm
  unfold mailbox_state_set_flags
  simp only
  cases h : announce_loop l
      { s with view := { s.view with flags_counter := s.view.flags_counter + 1 } } with
  | mk s1 b =>
    rw [h] at b1 hcond
    simp only at b1 hcond
    subst b1
    simp only
    by_cases hc : s.error_quit = true ∧
        ∃ kw ∈ s.view.keywords, kw.name.name ∉ keyword_atoms l ∧ 0 < kw.refcount
    · rw [if_pos (hcond.2 hc), if_pos hc]
      rfl
    · rw [if_neg (fun hq => hc (hcond.1 hq)), if_neg hc]
      split <;> rfl

/-- C18 (as amended): the result of `mailbox_state_set_flags`.  It returns the
error result -1 if and only if the response is not a list, or the list holds
an element that is not an atom, or an atom with the sigil that is not a known
system flag.  In every other case, on a vocabulary holding each name once, it
either returns 0 or, with `conf.error_quit` set, exits with status 2; either
way `flags_counter` is one more than before, the names of the vocabulary are
the old ones followed by the previously unknown keyword atoms of the list,
each once, and every keyword named by a keyword atom of the list carries the
new epoch.  Which of the two it is, is decided: when no keyword carries an
epoch above the view's, the call exits with status 2 exactly when
`conf.error_quit` is set and the announcement drops a referenced keyword (one
of the vocabulary before the call that the list does not name and whose
refcount is above 0), and it returns 0 in every other case. -/
theorem set_flags_result (s : State) (args : imap_arg) :
    ((∃ s', mailbox_state_set_flags s args = .ok (-1) s') ↔
        ¬ ∃ l, args = .LIST l ∧ well_formed_flags l = true) ∧
      (∀ l, args = .LIST l → well_formed_flags l = true →
        (keyword_names s.view.keywords).Nodup →
        (mailbox_state_set_flags s args = .ok 0 (mailbox_state_set_flags s args).state ∨
          (s.error_quit = true ∧
            mailbox_state_set_flags s args =
              .abort Abort.exit_2 (mailbox_state_set_flags s args).state)) ∧
        (mailbox_state_set_flags s args).state.view.flags_counter = s.view.flags_counter + 1 ∧
        (∃ added,
          keyword_names (mailbox_state_set_flags s args).state.view.keywords =
            keyword_names s.view.keywords ++ added ∧
          added.Nodup ∧
          ∀ a, a ∈ added ↔ a ∈ keyword_atoms l ∧ a ∉ keyword_names s.view.keywords) ∧
        (∀ kw ∈ (mailbox_state_set_flags s args).state.view.keywords,
          kw.name.name ∈ keyword_atoms l → kw.flags_counter = s.view.flags_counter + 1) ∧
        ((∀ kw ∈ s.view.keywords, kw.flags_counter ≤ s.view.flags_counter) →
          mailbox_state_set_flags s args =
            if s.error_quit = true ∧
                ∃ kw ∈ s.view.keywords, kw.name.name ∉ keyword_atoms l ∧ 0 < kw.refcount then
              .abort Abort.exit_2 (mailbox_state_set_flags s args).state
            else .ok 0 (mailbox_state_set_flags s args).state)) := by
  constructor
  · constructor
    · rintro ⟨s', hs'⟩ ⟨l, rfl, hwf⟩
      obtain ⟨h1, _, _⟩ := set_flags_well_formed s l hwf
      rcases h1 with h | ⟨_, h⟩
      · rw [h] at hs'; cases hs'
      · rw [h] at hs'; cases hs'
    · intro hno
      cases args with
      | LIST l =>
        have hwf : well_formed_flags l = false := by
          cases hb : well_formed_flags l with
          | false => rfl
          | true => exact absurd ⟨l, rfl, hb⟩ hno
        have hb := announce_loop_completes l
          { s with view := { s.view with flags_counter := s.view.flags_counter + 1 } }
        rw [hwf] at hb
        unfold mailbox_state_set_flags
        simp only
        cases h : announce_loop l
            { s with view := { s.view with flags_counter := s.view.flags_counter + 1 } } with
        | mk s1 b =>
          rw [h] at hb
          simp only at hb
          subst hb
          exact ⟨s1, rfl⟩
      | NIL => exact ⟨s, rfl⟩
      | ATOM _ => exact ⟨s, rfl⟩
      | STRING _ => exact ⟨s, rfl⟩
      | LITERAL _ => exact ⟨s, rfl⟩
      | LITERAL_SIZE _ => exact ⟨s, rfl⟩
  · rintro l rfl hwf hnd
    obtain ⟨h1, h2, h3⟩ := set_flags_well_formed s l hwf
    obtain ⟨v1, v2, _, v4, ⟨added, v5, v6⟩, v7⟩ := announce_loop_vocabulary l hwf
      { s with view := { s.view with flags_counter := s.view.flags_counter + 1 } } hnd
    simp only at v1 v2 v4 v5 v6 v7
    have hmapnames : keyword_names (List.map (fun kw : mailbox_keyword =>
        if kw.name.name ∈ keyword_atoms l then
          { kw with flags_counter := s.view.flags_counter + 1 } else kw) s.view.keywords) =
        keyword_names s.view.keywords := by
      simp only [keyword_names, List.map_map]
      apply List.map_congr_left
      intro kw _
      simp only [Function.comp]
      split <;> rfl
    have hnames : keyword_names (mailbox_state_set_flags s (.LIST l)).state.view.keywords =
        keyword_names s.view.keywords ++ keyword_names added := by
      rw [h2, v5]
      simp only [keyword_names, List.map_append] at hmapnames ⊢
      rw [hmapnames]
    refine ⟨?_, by rw [h3, v1], ⟨keyword_names added, hnames, ?_, ?_⟩, ?_,
      fun hepoch => set_flags_exit_or_return s l hwf hnd hepoch⟩
    · rcases h1 with h | ⟨hq, h⟩
      · exact Or.inl h
      · exact Or.inr ⟨by rw [← v2]; exact hq, h⟩
    · rw [← h2, hnames] at v4
      exact (List.nodup_append.1 v4).2.1
    · intro a
      constructor
      · intro ha
        simp only [keyword_names, List.mem_map] at ha
        obtain ⟨kw, hkw, rfl⟩ := ha
        exact ⟨(v6 kw hkw).2.1, (v6 kw hkw).2.2⟩
      · rintro ⟨ha1, ha2⟩
        have := v7 a ha1
        rw [← h2, hnames] at this
        rcases List.mem_append.1 this with h | h
        · exact absurd h ha2
        · exact h
    · intro kw hkw hn
      rw [h2, v5] at hkw
      rcases List.mem_append.1 hkw with h | h
      · obtain ⟨kw0, _, rfl⟩ := List.mem_map.1 h
        by_cases e : kw0.name.name ∈ keyword_atoms l
        · simp [e]
        · simp only [e, if_false] at hn
      · exact (v6 kw h).1

/-- C18, counterexample: with `conf.error_quit` set, the keyword `foo` carried
by a message and the well-formed announcement `FLAGS (\Answered)`, which drops
it, the call neither returns the error result nor returns success: the process
exits with status 2. -/
theorem announce_flags_exits_on_dropped_keyword :
    well_formed_flags [.ATOM "\\Answered"] = true ∧
      mailbox_state_set_flags { example_foo_fetched with error_quit := true }
          (.LIST [.ATOM "\\Answered"]) =
        .abort Abort.exit_2
          { example_foo_fetched with
            error_quit := true
            view := { example_foo_fetched.view with flags_counter := 2 }
            log := [⟨Channel.i_error, Msg.keyword_dropped "foo" 1⟩] } := by
  decide

/-- C18, witness: on the empty view `FLAGS (\Answered foo)` returns 0, the epoch
becomes 1 and `foo`, the one unknown keyword atom, is appended; with
`conf.error_quit` set and the keyword `foo` carried by a message,
`FLAGS (foo)` returns 0 and `FLAGS (\Answered)`, which drops `foo`, exits with
status 2. -/
theorem set_flags_result_witness :
    mailbox_state_set_flags empty_state (.LIST [.ATOM "\\Answered", .ATOM "foo"]) =
        .ok 0
          (mailbox_state_set_flags empty_state
            (.LIST [.ATOM "\\Answered", .ATOM "foo"])).state ∧
      (mailbox_state_set_flags empty_state
          (.LIST [.ATOM "\\Answered", .ATOM "foo"])).state.view.flags_counter =
        empty_state.view.flags_counter + 1 ∧
      keyword_names
        (mailbox_state_set_flags empty_state
          (.LIST [.ATOM "\\Answered", .ATOM "foo"])).state.view.keywords = ["foo"] ∧
      mailbox_state_set_flags { example_foo_fetched with error_quit := true }
          (.LIST [.ATOM "foo"]) =
        .ok 0
          (mailbox_state_set_flags { example_foo_fetched with error_quit := true }
            (.LIST [.ATOM "foo"])).state ∧
      mailbox_state_set_flags { example_foo_fetched with error_quit := true }
          (.LIST [.ATOM "\\Answered"]) =
        .abort Abort.exit_2
          (mailbox_state_set_flags { example_foo_fetched with error_quit := true }
            (.LIST [.ATOM "\\Answered"])).state :=
  ⟨(((set_flags_result empty_state (.LIST [.ATOM "\\Answered", .ATOM "foo"])).2
      [.ATOM "\\Answered", .ATOM "foo"] rfl (by decide) (by decide)).2.2.2.2
      (by decide)).trans (if_neg (by decide)),
    ((set_flags_result empty_state (.LIST [.ATOM "\\Answered", .ATOM "foo"])).2
      [.ATOM "\\Answered", .ATOM "foo"] rfl (by decide) (by decide)).2.1, by decide,
    (((set_flags_result { example_foo_fetched with error_quit := true }
      (.LIST [.ATOM "foo"])).2 [.ATOM "foo"] rfl (by decide) (by decide)).2.2.2.2
      (by decide)).trans (if_neg (by decide)),
    (((set_flags_result { example_foo_fetched with error_quit := true }
      (.LIST [.ATOM "\\Answered"])).2 [.ATOM "\\Answered"] rfl (by decide)
      (by decide)).2.2.2.2 (by decide)).trans (if_pos (by decide))⟩

theorem classified_input (log : List Report) (m : Msg) (h : classified log)
    (hm : code_channel m = Channel.client_input_error) :
    classified (client_input_error log m) := by
  intro r hr
  simp only [client_input_error, List.mem_append, List.mem_singleton] at hr
  rcases hr with hr | hr
  · exact h r hr
  · subst hr; exact hm.symm

theorem classified_state (log : List Report) (m : Msg) (h : classified log)
    (hm : code_channel m = Channel.client_state_error) :
    classified (client_state_error log m) := by
  intro r hr
  simp only [client_state_error, List.mem_append, List.mem_singleton] at hr
  rcases hr with hr | hr
  · exact h r hr
  · subst hr; exact hm.symm

theorem set_flags_loop_classified (alloc : Nat) (args : List imap_arg) :
    ∀ v, classified v.log → classified (set_flags_loop alloc args v).vars.log := by
  induction args with
  | nil => intro v h; exact h
  | cons a args ih =>
    intro v h
    cases a with
    | ATOM atom =>
      simp only [set_flags_loop]
      split
      · split
        · exact ih _ h
        · exact ih _ (classified_input _ _ h rfl)
      · split
        · exact ih _ (classified_state _ _ h rfl)
        · split
          · split
            · exact h
            · exact ih _ h
          · exact h
    | NIL => exact classified_input _ _ h rfl
    | STRING _ => exact classified_input _ _ h rfl
    | LITERAL _ => exact classified_input _ _ h rfl
    | LITERAL_SIZE _ => exact classified_input _ _ h rfl
    | LIST _ => exact classified_input _ _ h rfl

theorem check_flags_loop_classified (c old new : Nat) (e : Bool) (owners : List Nat) :
    ∀ k log, classified log → classified (check_flags_loop c old new e owners k log) := by
  induction owners with
  | nil => intro k log h; exact h
  | cons o os ih =>
    intro k log h
    simp only [check_flags_loop]
    apply ih
    split
    · exact classified_state _ _ h rfl
    · exact h

theorem check_keywords_loop_classified (c : Nat) (old : msg_old_flags) (kb : List Nat)
    (keywords : List mailbox_keyword) (e : Bool) (is : List Nat) :
    ∀ log, classified log → classified (check_keywords_loop c old kb keywords e is log).1 := by
  induction is with
  | nil => intro log h; exact h
  | cons i is ih =>
    intro log h
    simp only [check_keywords_loop]
    cases hb : kb.get? (i / 8) with
    | none => exact h
    | some b =>
      simp only []
      generalize (if i ≥ old.kw_alloc_size then false
        else (old.keyword_bitmask.getD (i / 8) 0 &&& (1 <<< (i % 8))) != 0) = old_set
      by_cases hd : (old_set != (b &&& 1 <<< (i % 8) != 0)) = true
      · simp only [hd, if_true]
        cases hk : keywords.get? i with
        | none => exact h
        | some kw =>
          simp only []
          apply ih
          split
          · exact classified_state _ _ h rfl
          · exact h
      · simp only [hd]
        exact ih _ h

theorem flag_owner_checks_classified (s : State) (view : mailbox_view) (old : msg_old_flags)
    (metadata : message_metadata_dynamic) (log : List Report) (h : classified log) :
    classified (flag_owner_checks s view old metadata log).1 := by
  unfold flag_owner_checks
  split
  · exact h
  · split
    · exact h
    · split
      · exact h
      · split
        · split
          · exact h
          · exact classified_state _ _ h rfl
          · exact h
        · split
          · exact check_keywords_loop_classified _ _ _ _ _ _ _
              (check_flags_loop_classified _ _ _ _ _ _ _ h)
          · exact h

theorem set_flags_classified (s : State) (args : List imap_arg) (m : Nat)
    (h : classified s.log) : classified (message_metadata_set_flags s args m).state.log := by
  unfold message_metadata_set_flags
  cases hm : s.view.messages.get? m with
  | none => exact h
  | some metadata =>
    simp only
    split
    · exact h
    · have hl := set_flags_loop_classified s.view.keyword_bitmask_alloc_size args
        ⟨0, (mailbox_keywords_clear s.view.keyword_bitmask_alloc_size s.view.keywords
          metadata.keyword_bitmask).1, (mailbox_keywords_clear s.view.keyword_bitmask_alloc_size
          s.view.keywords metadata.keyword_bitmask).2, s.log⟩ h
      cases hloop : set_flags_loop s.view.keyword_bitmask_alloc_size args
        ⟨0, (mailbox_keywords_clear s.view.keyword_bitmask_alloc_size s.view.keywords
          metadata.keyword_bitmask).1, (mailbox_keywords_clear s.view.keyword_bitmask_alloc_size
          s.view.keywords metadata.keyword_bitmask).2, s.log⟩ with
      | abort why v => rw [hloop] at hl; exact hl
      | non_atom v => rw [hloop] at hl; exact hl
      | eol v =>
        rw [hloop] at hl
        simp only [flags_loop_end.vars] at hl
        have hc := flag_owner_checks_classified s { s.view with keywords := v.keywords }
          (snapshot_old_flags s.view.keyword_bitmask_alloc_size metadata)
          { metadata with keyword_bitmask := v.keyword_bitmask,
                          mail_flags := v.flags ||| MAIL_FLAGS_SET } v.log hl
        simp only
        cases hchk : flag_owner_checks s { s.view with keywords := v.keywords }
            (snapshot_old_flags s.view.keyword_bitmask_alloc_size metadata)
            { metadata with keyword_bitmask := v.keyword_bitmask,
                            mail_flags := v.flags ||| MAIL_FLAGS_SET } v.log with
        | mk log ab =>
          rw [hchk] at hc
          cases ab <;> exact hc

theorem headers_parse_classified (hdrs : List message_header_line) :
    ∀ headers log, classified log → classified (headers_parse hdrs headers log).2 := by
  induction hdrs with
  | nil => intro headers log h; exact h
  | cons hdr hdrs ih =>
    intro headers log h
    simp only [headers_parse]
    split
    · exact ih _ _ h
    · split
      · exact ih _ _ (classified_state _ _ h rfl)
      · exact ih _ _ h

theorem headers_match_classified (id : String) (fs : List message_header) :
    ∀ orig log, classified log → classified (headers_match id fs orig log).2 := by
  induction fs with
  | nil => intro orig log h; exact h
  | cons f fs ih =>
    intro orig log h
    simp only [headers_match]
    split
    · exact ih _ _ h
    · split
      · exact ih _ _ h
      · split
        · exact ih _ _ (classified_state _ _ h rfl)
        · exact ih _ _ h

theorem fetch_parse_header_fields_classified (ext : Externals) (s : State) (arg : imap_arg)
    (rest : List imap_arg) (k : Nat) (h : classified s.log) :
    classified (fetch_parse_header_fields ext s arg rest k).state.log := by
  have key : ∀ (g : message_global) (header : String) (headers : List message_header),
      classified (State.set_msg
        { s with log := (headers_match g.message_id
          (headers_parse (ext.message_parse_header header) headers s.log).1 g.headers
          (headers_parse (ext.message_parse_header header) headers s.log).2).2 } k
        { g with headers := (headers_match g.message_id
          (headers_parse (ext.message_parse_header header) headers s.log).1 g.headers
          (headers_parse (ext.message_parse_header header) headers s.log).2).1 }).log := by
    intro g header headers
    exact headers_match_classified _ _ _ _ (headers_parse_classified _ _ _ h)
  unfold fetch_parse_header_fields
  split
  · split
    · exact h
    · split
      · split
        · exact h
        · split
          · exact h
          · split
            · exact h
            · exact key _ _ _
          · split
            · exact h
            · exact key _ _ _
          · split
            · exact h
            · split
              · exact h
              · exact key _ _ _
          · exact h
      · exact h
  · exact h

theorem fetch_pair_msg_classified (ext : Externals) (s : State) (ms : message_metadata_static)
    (k : Nat) (g : message_global) (name value : String) (v : imap_arg) (rest : List imap_arg)
    (h : classified s.log) :
    classified (fetch_pair_msg ext s ms k g name value v rest).state.log := by
  unfold fetch_pair_msg
  split
  · exact h
  · exact h
  · have hf := fetch_parse_header_fields_classified ext s v rest k h
    split
    · rename_i r s1 hr
      rw [hr] at hf
      split
      · exact classified_input _ _ hf rfl
      · exact hf
    · rename_i why s1 hr
      rw [hr] at hf
      exact hf
  · split
    · exact h
    · split
      · exact h
      · exact classified_state _ _ h rfl
  · simp only [Outcome.state, State.set_msg]
    split <;> split <;> first | exact h | exact classified_state _ _ h rfl

theorem fetch_pair_classified (ext : Externals) (s : State) (m : Nat) (a v : imap_arg)
    (rest : List imap_arg) (h : classified s.log) :
    classified (fetch_pair ext s m a v rest).state.log := by
  unfold fetch_pair
  split
  · simp only
    split
    · exact h
    · split
      · split
        · exact set_flags_classified s _ m h
        · exact classified_input _ _ h rfl
      · split
        · exact h
        · split
          · split
            · exact classified_input _ _ h rfl
            · split
              · exact h
              · split
                · exact h
                · split
                  · exact h
                  · split
                    · exact classified_input _ _ h rfl
                    · exact h
          · split
            · exact h
            · split
              · exact h
              · split
                · exact h
                · exact fetch_pair_msg_classified ext s _ _ _ _ _ v rest h
  · exact h

theorem fetch_pairs_loop_classified (ext : Externals) (m : Nat) :
    ∀ (n : Nat) (l : List imap_arg), l.length ≤ n → ∀ s : State, classified s.log →
      classified (fetch_pairs_loop ext m l s).state.log := by
  intro n
  induction n with
  | zero =>
    intro l hl s h
    cases l with
    | nil => exact h
    | cons a t => simp at hl
  | succ n ih =>
    intro l hl s h
    match l, hl with
    | [], _ => exact h
    | [a], _ => exact h
    | a :: v :: rest, hl =>
      simp only [fetch_pairs_loop]
      have hp := fetch_pair_classified ext s m a v rest h
      cases hc : fetch_pair ext s m a v rest with
      | ok u s1 =>
        rw [hc] at hp
        simp only
        exact ih rest (by simp only [List.length_cons] at hl; omega) s1 hp
      | abort why s1 =>
        rw [hc] at hp
        exact hp

theorem client_fetch_envelope_classified (s : State) (j : Nat) (l : List imap_arg) (uid : Nat)
    (h : classified s.log) : classified (client_fetch_envelope s j l uid).state.log := by
  unfold client_fetch_envelope
  split
  · exact h
  · split
    · split
      · exact h
      · split
        · split
          · exact h
          · split
            · exact h
            · exact classified_input _ _ h rfl
        · split
          · exact h
          · exact h
    · exact h

theorem fetch_uid_classified (seq uidp : Nat) (l : List imap_arg) (log : List Report)
    (h : classified log) : classified (fetch_uid seq uidp l log).2 := by
  unfold fetch_uid
  split
  · simp only
    split
    · exact h
    · split
      · exact classified_input _ _ h rfl
      · exact h
  · exact h

/-- C20: report classification.  Every report `mailbox_state_handle_fetch`
makes goes through the channel `code_channel` gives for its message: a changed
BODY, BODYSTRUCTURE, ENVELOPE or size, a changed header, an ownership
violation, a keyword used without being in FLAGS and an unexpected header are
consistency violations (`client_state_error`); a FETCH or FLAGS value that is
not a list, a non-atom or an invalid system flag in a flag list, a changed UID
or Message-Id, a broken INTERNALDATE or HEADER.FIELDS and a changed
INTERNALDATE are protocol errors (`client_input_error`).  Reports already in
the log are kept as they are. -/
theorem handle_fetch_report_channels (ext : Externals) (s : State) (seq : Nat) (args : imap_arg)
    (h : ∀ r ∈ s.log, r.channel = code_channel r.msg) :
    ∀ r ∈ (mailbox_state_handle_fetch ext s seq args).state.log,
      r.channel = code_channel r.msg := by
  have hu := fun l => fetch_uid_classified seq
    ((array_idx_modifiable 0 s.view.uidmap (seq - 1)).getD (seq - 1) 0) l s.log h
  show classified (mailbox_state_handle_fetch ext s seq args).state.log
  unfold mailbox_state_handle_fetch
  split
  · exact h
  · simp only
    split
    · rename_i l
      split
      · exact fetch_pairs_loop_classified ext _ l.length l (le_refl _) _ (hu l)
      · split
        · exact hu l
        · split
          · exact hu l
          · split
            · split
              · rename_i u s2 hc
                have he := congrArg (fun o => classified (Outcome.state o).log) hc
                exact fetch_pairs_loop_classified ext _ l.length l (le_refl _) s2
                  (Eq.mp he (client_fetch_envelope_classified _ _ _ _ (hu l)))
              · rename_i why s2 hc
                have he := congrArg (fun o => classified (Outcome.state o).log) hc
                exact Eq.mp he (client_fetch_envelope_classified _ _ _ _ (hu l))
            · exact fetch_pairs_loop_classified ext _ l.length l (le_refl _) _ (hu l)
    · exact classified_input _ _ h rfl

/-- C20, witness: the reply `(BODY ("text" "plain") FLAGS bar)` on a message
whose stored BODY is `("text" "html")` makes two reports, a changed BODY
through `client_state_error` and a FLAGS value that is no list through
`client_input_error`. -/
theorem handle_fetch_report_channels_witness :
    (mailbox_state_handle_fetch example_ext (example_state 0 0 0 [0, 0, 0, 0] 0) 1
        (.LIST [.ATOM "BODY", .STRING "(\"text\" \"plain\")", .ATOM "FLAGS",
          .ATOM "bar"])).state.log =
        [⟨Channel.client_state_error,
            Msg.field_changed 5 "<1@example>" "BODY" "(\"text\" \"html\")" "(\"text\" \"plain\")"⟩,
          ⟨Channel.client_input_error, Msg.flags_not_list⟩] ∧
      ∀ r ∈ (mailbox_state_handle_fetch example_ext (example_state 0 0 0 [0, 0, 0, 0] 0) 1
        (.LIST [.ATOM "BODY", .STRING "(\"text\" \"plain\")", .ATOM "FLAGS",
          .ATOM "bar"])).state.log, r.channel = code_channel r.msg :=
  ⟨by decide,
    handle_fetch_report_channels example_ext (example_state 0 0 0 [0, 0, 0, 0] 0) 1
      (.LIST [.ATOM "BODY", .STRING "(\"text\" \"plain\")", .ATOM "FLAGS", .ATOM "bar"])
      (by intro r hr; cases hr)⟩

/-- C20, counterexample: the stored internaldate is that of 1 January 2024,
the vocabulary holds `foo` only and the header `From` was requested.  The reply
`(INTERNALDATE "02-Jan-2024 00:00:00 +0000" FLAGS (bar) BODY[HEADER.FIELDS
(FROM)] "Subject: hi")` makes three reports, each through the other channel
than the one claimed: the changed INTERNALDATE through `client_input_error`,
the keyword used without being in FLAGS and the unexpected header through
`client_state_error`. -/
theorem internaldate_change_reported_as_input_error :
    (mailbox_state_handle_fetch example_ext
        (State.set_ms (example_state 0 0 0 [0, 0, 0, 0] 0) 0 ⟨5, 1704067200, false, 0, some 0⟩) 1
        (.LIST [.ATOM "INTERNALDATE", .STRING "02-Jan-2024 00:00:00 +0000",
          .ATOM "FLAGS", .LIST [.ATOM "bar"],
          .ATOM "BODY[HEADER.FIELDS", .LIST [.ATOM "FROM"], .ATOM "]",
          .STRING "Subject: hi\r\n\r\n"])).state.log =
        [⟨Channel.client_input_error, Msg.internaldate_changed 5 1704067200 1704153600⟩,
          ⟨Channel.client_state_error, Msg.keyword_not_in_flags "bar"⟩,
          ⟨Channel.client_state_error, Msg.unexpected_header "Subject"⟩] ∧
      claimed_channel (Msg.internaldate_changed 5 1704067200 1704153600) =
        Channel.client_state_error ∧
      claimed_channel (Msg.keyword_not_in_flags "bar") = Channel.client_input_error ∧
      claimed_channel (Msg.unexpected_header "Subject") = Channel.client_input_error := by
  decide

theorem check_keywords_loop_take (c : Nat) (old : msg_old_flags) (kb : List Nat)
    (keywords : List mailbox_keyword) (e : Bool) (n : Nat) (is : List Nat) :
    (∀ i ∈ is, i < n) → ∀ log,
      check_keywords_loop c old kb keywords e is log =
        check_keywords_loop c old kb (keywords.take n) e is log := by
  induction is with
  | nil => intro _ log; rfl
  | cons i is ih =>
    intro hi log
    have hlt : i < n := hi i (List.mem_cons_self _ _)
    have hrest : ∀ i ∈ is, i < n := fun j hj => hi j (List.mem_cons_of_mem _ hj)
    have hget : (keywords.take n).get? i = keywords.get? i := by
      rw [List.get?_eq_getElem?, List.get?_eq_getElem?, List.getElem?_take_of_lt hlt]
    simp only [check_keywords_loop, hget, ih hrest]

theorem check_unexpected_flag_changes_take (client_idx : Nat) (view : mailbox_view)
    (storage : mailbox_storage) (old : msg_old_flags) (metadata : message_metadata_dynamic)
    (expunged : Bool) (log : List Report) :
    check_unexpected_flag_changes client_idx view storage old metadata expunged log =
      check_unexpected_flag_changes client_idx
        { view with keywords := view.keywords.take view.keyword_bitmask_alloc_size }
        storage old metadata expunged log := by
  unfold check_unexpected_flag_changes
  exact check_keywords_loop_take _ _ _ _ _ view.keyword_bitmask_alloc_size _
    (fun i hi => List.mem_range.1 hi) _

/-- C21, the code at the failing input: the capacity is 4 bytes and the
vocabulary holds five keywords, `k0` (index 0) and `k4` (index 4) both owned
by the observing session; the message belongs to no session and owners are
assigned.  The keyword loop of `check_unexpected_flag_changes` runs over
`i < keyword_bitmask_alloc_size`, a count of bytes, so it stops before index
4: when the bit of `k4` differs between the snapshot and the new bitmask
nothing is reported, while the same change of `k0` is reported, both directly
and through `message_metadata_set_flags` with the flag lists `(k4)` and
`(k0)`. -/
theorem keyword_past_byte_count_not_checked :
    (example_keywords_state.view.keywords.map fun kw => kw.name.owner_client_idx1) =
        [1, 0, 0, 0, 1] ∧
      example_keywords_state.view.keyword_bitmask_alloc_size = 4 ∧
      check_unexpected_flag_changes 0 example_keywords_state.view example_keywords_state.storage
          ⟨MAIL_FLAGS_SET, [0, 0, 0, 0], 4⟩
          ⟨some 0, MAIL_FLAGS_SET, [16, 0, 0, 0], 1, FLAGCHANGE_DIRTY_NO⟩ false [] =
        ([], none) ∧
      check_unexpected_flag_changes 0 example_keywords_state.view example_keywords_state.storage
          ⟨MAIL_FLAGS_SET, [0, 0, 0, 0], 4⟩
          ⟨some 0, MAIL_FLAGS_SET, [1, 0, 0, 0], 1, FLAGCHANGE_DIRTY_NO⟩ false [] =
        ([⟨Channel.client_state_error, Msg.owned_keyword_changed "k0" false⟩], none) ∧
      ((message_metadata_set_flags example_keywords_state [.ATOM "k4"] 0).state.view.messages.map
        fun md => md.keyword_bitmask) = [[16, 0, 0, 0]] ∧
      (message_metadata_set_flags example_keywords_state [.ATOM "k4"] 0).state.log = [] ∧
      (message_metadata_set_flags example_keywords_state [.ATOM "k0"] 0).state.log =
        [⟨Channel.client_state_error, Msg.owned_keyword_changed "k0" false⟩] := by
  decide

theorem strcasecmp_eq_comm (a b : String) : strcasecmp_eq a b = strcasecmp_eq b a := by
  unfold strcasecmp_eq
  rw [Bool.eq_iff_iff]
  simp only [beq_iff_eq]
  exact eq_comm

theorem header_find_none (name : String) (hs : List message_header) :
    header_find name hs = none ↔ ∀ h ∈ hs, strcasecmp_eq h.name name = false := by
  induction hs with
  | nil => simp [header_find]
  | cons h hs ih =>
    simp only [header_find, List.mem_cons, forall_eq_or_imp]
    by_cases hc : strcasecmp_eq h.name name = true
    · simp [hc]
    · simp only [hc, Bool.false_eq_true, if_false, Option.map_eq_none', ih]
      simp only [Bool.not_eq_true] at hc
      simp [hc]

/-- C22: `msg->headers` is append-only with distinct names.  For stored headers
whose names are pairwise distinct under `strcasecmp` and any fetched headers,
after `headers_match` the old stored headers are an unchanged prefix of the new
ones (also when a change is reported), every appended entry is a fetched entry
whose name matched no header stored before, and the stored names are still
pairwise distinct. -/
theorem headers_match_append_only (message_id : String) (fs orig : List message_header)
    (log : List Report) (hd : distinct_header_names orig) :
    ∃ added,
      (headers_match message_id fs orig log).1 = orig ++ added ∧
      (∀ a ∈ added, a ∈ fs ∧ ∀ o ∈ orig, strcasecmp_eq o.name a.name = false) ∧
      distinct_header_names (headers_match message_id fs orig log).1 := by
  induction fs generalizing orig log with
  | nil =>
    exact ⟨[], by simp [headers_match], by simp, hd⟩
  | cons f fs ih =>
    simp only [headers_match]
    cases hf : header_find f.name orig with
    | none =>
      simp only
      have hnone := (header_find_none f.name orig).1 hf
      by_cases hv : f.value.data.length ≠ 0
      · rw [if_pos hv]
        have hd1 : distinct_header_names (orig ++ [f]) := by
          unfold distinct_header_names at *
          rw [List.pairwise_append]
          refine ⟨hd, List.pairwise_singleton _ _, ?_⟩
          intro a ha b hb
          rw [List.mem_singleton] at hb
          subst hb
          exact hnone a ha
        obtain ⟨added, h1, h2, h3⟩ := ih (orig ++ [f]) log hd1
        refine ⟨f :: added, ?_, ?_, h3⟩
        · rw [h1]; simp
        · intro a ha
          rcases List.mem_cons.1 ha with rfl | ha
          · exact ⟨List.mem_cons_self _ _, hnone⟩
          · obtain ⟨m1, m2⟩ := h2 a ha
            exact ⟨List.mem_cons_of_mem _ m1, fun o ho => m2 o (List.mem_append_left _ ho)⟩
      · rw [if_neg hv]
        obtain ⟨added, h1, h2, h3⟩ := ih orig log hd
        exact ⟨added, h1, fun a ha => ⟨List.mem_cons_of_mem _ (h2 a ha).1, (h2 a ha).2⟩, h3⟩
    | some j =>
      simp only
      have key : ∀ log1, ∃ added,
          (headers_match message_id fs orig log1).1 = orig ++ added ∧
          (∀ a ∈ added, a ∈ f :: fs ∧ ∀ o ∈ orig, strcasecmp_eq o.name a.name = false) ∧
          distinct_header_names (headers_match message_id fs orig log1).1 := by
        intro log1
        obtain ⟨added, h1, h2, h3⟩ := ih orig log1 hd
        exact ⟨added, h1, fun a ha => ⟨List.mem_cons_of_mem _ (h2 a ha).1, (h2 a ha).2⟩, h3⟩
      split
      · exact key _
      · split
        · exact key _
        · exact key _

/-- C22, witness: `Subject: hi` is stored; the fetched headers `SUBJECT: ho`
and `From: a` report the changed subject, keep the stored entry and append
`From`. -/
theorem headers_match_append_only_witness :
    headers_match "<1@example>" [⟨"SUBJECT", "ho", false⟩, ⟨"From", "a", false⟩]
        [⟨"Subject", "hi", false⟩] [] =
        ([⟨"Subject", "hi", false⟩, ⟨"From", "a", false⟩],
          [⟨Channel.client_state_error,
            Msg.header_changed "<1@example>" "SUBJECT" "hi" "ho"⟩]) ∧
      ∃ added,
        (headers_match "<1@example>" [⟨"SUBJECT", "ho", false⟩, ⟨"From", "a", false⟩]
          [⟨"Subject", "hi", false⟩] []).1 = [⟨"Subject", "hi", false⟩] ++ added ∧
        (∀ a ∈ added, a ∈ [(⟨"SUBJECT", "ho", false⟩ : message_header), ⟨"From", "a", false⟩] ∧
          ∀ o ∈ [(⟨"Subject", "hi", false⟩ : message_header)],
            strcasecmp_eq o.name a.name = false) ∧
        distinct_header_names
          (headers_match "<1@example>" [⟨"SUBJECT", "ho", false⟩, ⟨"From", "a", false⟩]
            [⟨"Subject", "hi", false⟩] []).1 :=
  ⟨by decide,
    headers_match_append_only "<1@example>" [⟨"SUBJECT", "ho", false⟩, ⟨"From", "a", false⟩]
      [⟨"Subject", "hi", false⟩] [] (by unfold distinct_header_names; decide)⟩

end ImapTest
